import Mathlib

/-!
# SDDMM example driver (`example/sddmm/sddmm.cu.cc`) — verification development

A shallow embedding of the host program `main` of the SDDMM benchmark and of
the interfaces declared in `src/sddmm/sddmm.h`.

* C `int` values are `Int`; vector indices and loop counters are `Nat`.  The
  one place where machine arithmetic matters on the inputs considered, the
  `size_t` expression `csr_indptr_buffer.size() - 1`, is modelled modulo `2^64`.
* A read past the end of a `std::vector` is a `Fault` (the C++ behaviour is
  undefined there).
* `float` and `double` values in the timing and throughput computations are rationals, and
  every `float`/`double` operation is the exact operation followed by rounding to the nearest
  binary32/binary64 value, ties to even (`toFloat`, `toDouble`).  Infinities and NaN are not
  represented, so statements about computed values carry range hypotheses.  In the sampled
  product, whose code is not part of the sources, values are elements of a semiring.
* Calls into helper headers, the CUDA runtime and cuSPARSE are recorded as events of the run
  and taken to return normally.
-/

namespace Sddmm

/-! ## Row expansion (`sddmm.cu.cc`, lines 58-64) -/

/-- The places in `main` that read `csr_indptr_buffer`. -/
inductive Site where
  | expansionLoop
  | printIndptr
  deriving DecidableEq, Repr

/-- An out-of-bounds read: where it happened, the index read and the size of the vector. -/
structure Fault where
  site : Site
  index : Nat
  size : Nat
  deriving DecidableEq, Repr

/-- Read `v[i]` of a `std::vector<int>`; reading at `i >= v.size()` is a fault. -/
def readAt (site : Site) (v : List Int) (i : Nat) : Except Fault Int :=
  match v[i]? with
  | some x => Except.ok x
  | none => Except.error ⟨site, i, v.length⟩

/-- The loop bound `csr_indptr_buffer.size() - 1`, computed in the unsigned 64-bit type `size_t`. -/
def loopBound (size : Nat) : Nat := (size + 2 ^ 64 - 1) % 2 ^ 64

/-- The inner loop `for (int j = 0; j < cnt; ++j) row_buffer.push_back(row);`,
by recursion on the number of iterations left. -/
def pushLoop (row : Int) : Nat → List Int → List Int
  | 0, row_buffer => row_buffer
  | n + 1, row_buffer => pushLoop row n (row_buffer ++ [row])

/-- The outer loop `for (int i = 0; i < bound; ++i) { inner loop; row++; }` by recursion on the
number of iterations left; the state is `(i, row, row_buffer)`.  The inner loop runs
`csr_indptr_buffer[i + 1] - csr_indptr_buffer[i]` times (not at all when the difference is
`<= 0`). -/
def expandLoop (csr_indptr_buffer : List Int) :
    Nat → Nat → Int → List Int → Except Fault (List Int)
  | 0, _, _, row_buffer => Except.ok row_buffer
  | n + 1, i, row, row_buffer =>
    match readAt Site.expansionLoop csr_indptr_buffer (i + 1) with
    | Except.error f => Except.error f
    | Except.ok hi =>
      match readAt Site.expansionLoop csr_indptr_buffer i with
      | Except.error f => Except.error f
      | Except.ok lo =>
        expandLoop csr_indptr_buffer n (i + 1) (row + 1) (pushLoop row (hi - lo).toNat row_buffer)

/-- The row expansion of `main`: `row = 0`, empty `row_buffer`, then the loop over
`i < csr_indptr_buffer.size() - 1`. -/
def expandRows (csr_indptr_buffer : List Int) : Except Fault (List Int) :=
  expandLoop csr_indptr_buffer (loopBound csr_indptr_buffer.length) 0 0 []

/-- Entry `i` of an index array as an integer (`0` past the end; only used in bounds). -/
def entry (v : List Int) (i : Nat) : Int := v.getD i 0

/-- The indptr invariant of the data model: `M + 1` entries, first entry `0`, non-decreasing. -/
def ValidIndptr (M : Nat) (rowStart : List Int) : Prop :=
  rowStart.length = M + 1 ∧ entry rowStart 0 = 0 ∧ rowStart.Pairwise (· ≤ ·)

instance (M : Nat) (rowStart : List Int) : Decidable (ValidIndptr M rowStart) := by
  unfold ValidIndptr; infer_instance

/-- Closed form of the expansion of a list of row pointers, starting at row number `row`. -/
def expandSpec : List Int → Int → List Int
  | lo :: hi :: rest, row => List.replicate (hi - lo).toNat row ++ expandSpec (hi :: rest) (row + 1)
  | _, _ => []

/-- Indices of `row_buffer` read by the `count`-element host-to-device copy of line 114. -/
def copyReads (count : Int) : List Nat := List.range count.toNat

/-! ## The sampled product: reference computation and the two strategies of `sddmm.h` -/

/-- Modelled from the spec: the `K`-length dot product of row `r` of `A` and row `c` of `B`
(both row-major with `K` columns) that `sddmm_reference_host` and the kernels declared in
`sddmm.h` compute (their bodies are not part of the sources), accumulated in ascending index
order.  Values are elements of a semiring: `float` rounding is not modelled. -/
def dotRows {α : Type} [Semiring α] (K : Nat) (A B : List α) (r c : Nat) : α :=
  (List.range K).foldl (fun acc t => acc + A.getD (r * K + t) 0 * B.getD (c * K + t) 0) 0

/-- Modelled from the spec: work units for the positions `p, p + 1, ..., p + n - 1`, each writing
`out[p] = f p` and nothing else (the units are independent, so they are run in ascending
order). -/
def writeRange {α : Type} (f : Nat → α) : Nat → Nat → List α → List α
  | 0, _, out => out
  | n + 1, p, out => writeRange f n (p + 1) (out.set p (f p))

/-- Modelled from the spec: `rowOf[p]`, the row `r` with `rowStart[r] <= p < rowStart[r+1]`. -/
def rowOf (rowStart : List Int) (p : Nat) : Nat :=
  ((List.range (rowStart.length - 1)).find?
    (fun r => decide (entry rowStart r ≤ (p : Int) ∧ (p : Int) < entry rowStart (r + 1)))).getD 0

/-- Modelled from the spec: `sddmm_reference_host` (declared in `util/sp_util.hpp`, not part of
the sources), section 4.1: for every nonzero position `p` with `r = rowOf[p]` and
`c = colIndex[p]`, `C_ref[p]` is the dot product of row `r` of `A` and row `c` of `B`.  The
arguments are those of the call in `main`; the values of the sparse matrix are not used. -/
def sddmm_reference_host {α : Type} [Semiring α] (_M _N K nnz : Nat)
    (csr_indptr csr_indices : List Int) (_csr_values A B C_ref : List α) : List α :=
  writeRange (fun p => dotRows K A B (rowOf csr_indptr p) (entry csr_indices p).toNat) nnz 0 C_ref

/-- Modelled from the spec: `sddmm_cuda_coo` (declared in `sddmm.h`, body not part of the
sources), section 4.3: one work unit per nonzero entry `p`, using `rowind[p]` and `colind[p]`
directly and writing `out[p]`. -/
def sddmm_cuda_coo {α : Type} [Semiring α] (k nnz : Nat) (rowind colind : List Int)
    (D1 D2 out : List α) : List α :=
  writeRange (fun p => dotRows k D1 D2 (entry rowind p).toNat (entry colind p).toNat) nnz 0 out

/-- Modelled from the spec: the work units of the CSR strategy, one per row `r`, by recursion on
the number of rows left; the unit of row `r` goes through the entries
`rowptr[r], ..., rowptr[r+1] - 1` of that row. -/
def csrLoop {α : Type} [Semiring α] (k : Nat) (rowptr colind : List Int) (D1 D2 : List α) :
    Nat → Nat → List α → List α
  | 0, _, out => out
  | n + 1, r, out =>
    csrLoop k rowptr colind D1 D2 n (r + 1)
      (writeRange (fun p => dotRows k D1 D2 r (entry colind p).toNat)
        (entry rowptr (r + 1) - entry rowptr r).toNat (entry rowptr r).toNat out)

/-- Modelled from the spec: `sddmm_cuda_csr` (declared in `sddmm.h`, body not part of the
sources), section 4.2: one work unit per matrix row. -/
def sddmm_cuda_csr {α : Type} [Semiring α] (m k _nnz : Nat) (rowptr colind : List Int)
    (D1 D2 out : List α) : List α :=
  csrLoop k rowptr colind D1 D2 m 0 out

/-- The view invariant of the data model: a valid indptr array ending in `nnz`, and `nnz` column
indices, each in `[0, N)`. -/
def ValidView (M N nnz : Nat) (rowStart colIndex : List Int) : Prop :=
  ValidIndptr M rowStart ∧ entry rowStart M = (nnz : Int) ∧ colIndex.length = nnz ∧
    ∀ c ∈ colIndex, 0 ≤ c ∧ c < (N : Int)

instance (M N nnz : Nat) (rowStart colIndex : List Int) :
    Decidable (ValidView M N nnz rowStart colIndex) := by
  unfold ValidView; infer_instance

/-! ## Events of a run of `main` -/

/-- The three benchmarked strategies: the cuSPARSE baseline, `sddmm_cuda_csr`, `sddmm_cuda_coo`. -/
inductive Strategy where
  | cusparse
  | csr
  | coo
  deriving DecidableEq, Repr

/-- Device buffers allocated by `main`. -/
inductive Buf where
  | A_d
  | B_d
  | C_d
  | csr_values_d
  | csr_indptr_d
  | row_d
  | csr_indices_d
  | dBuffer
  deriving DecidableEq, Repr

/-- Storage order of a cuSPARSE dense matrix (`CUSPARSE_ORDER_ROW`, `CUSPARSE_ORDER_COL`). -/
inductive Order where
  | row
  | col
  deriving DecidableEq, Repr

/-- The arguments of `cusparseCreateDnMat`: rows, columns, leading dimension, storage order. -/
structure DnMatDescr where
  rows : Int
  cols : Int
  ld : Int
  order : Order
  deriving DecidableEq, Repr

/-- Offset in the value buffer of element `(i, j)` of a dense matrix descriptor: `i * ld + j`
for row-major storage, `j * ld + i` for column-major storage (the cuSPARSE addressing rule). -/
def DnMatDescr.offset (d : DnMatDescr) (i j : Int) : Int :=
  match d.order with
  | Order.row => i * d.ld + j
  | Order.col => j * d.ld + i

/-- Line 140: `cusparseCreateDnMat(&AMatDecsr, M, K, K, A_d, CUDA_R_32F, CUSPARSE_ORDER_ROW)`. -/
def AMatDecsr (M K : Int) : DnMatDescr := ⟨M, K, K, Order.row⟩

/-- Line 141: `cusparseCreateDnMat(&BMatDecsr, K, N, N, B_d, CUDA_R_32F, CUSPARSE_ORDER_ROW)`. -/
def BMatDecsr (N K : Int) : DnMatDescr := ⟨K, N, N, Order.row⟩

/-- The entry at `(r, c)` of the product `op(A) * op(B)` that `cusparseSDDMM` samples when both
operands are passed with `CUSPARSE_OPERATION_NON_TRANSPOSE`: `A` is described by `dA`
(`m x k`), `B` by `dB` (`k x n`), and the entry is the sum over `t < k` of `A(r, t) * B(t, c)`,
each element read from its buffer at the offset the descriptor gives. -/
def baselineProduct {α : Type} [Semiring α] (dA dB : DnMatDescr) (A B : List α) (r c : Nat) : α :=
  (List.range dA.cols.toNat).foldl
    (fun acc t => acc + A.getD (dA.offset r t).toNat 0 * B.getD (dB.offset t c).toNat 0) 0

/-- The operations `main` performs, in program order. -/
inductive Event where
  | printf_usage
  | read_npz_file
  | printf_finish (M N nnz : Int)
  | malloc_host
  | printf_alloc_failed
  | fill_random
  | printf_indptr (v : Int)
  | sddmm_reference_host (M N K nnz : Int) (csr_indptr csr_indices : List Int)
  | cudaDeviceReset
  | cudaSetDevice
  | cudaMalloc (b : Buf)
  | cudaMemcpy (dst : Buf) (elems : Int)
  | cudaMemcpy_row (row_buffer : List Int) (elems : Int)
  | cudaMemset (b : Buf)
  | cudaMemcpyToHost (src : Buf)
  | cusparseCreate
  | cusparseCreateCsr (M N nnz : Int)
  | cusparseCreateDnMat (d : DnMatDescr)
  | cusparseSDDMM_bufferSize
  | cusparseSDDMM_preprocess
  | kernel (s : Strategy)
  | timer_start (flush : Bool)
  | timer_stop
  | printf_report (s : Strategy) (M N K nnz : Int) (kernel_dur_msecs gflops : ℚ)
  | free_host
  | cudaFree (b : Buf)
  | cusparseDestroy
  deriving DecidableEq

/-- Device allocation, device copy, kernel launch and every other call into the CUDA runtime
or cuSPARSE (the `GpuTimer` included). -/
def Event.isDeviceWork : Event → Bool
  | Event.printf_usage => false
  | Event.read_npz_file => false
  | Event.printf_finish _ _ _ => false
  | Event.malloc_host => false
  | Event.printf_alloc_failed => false
  | Event.fill_random => false
  | Event.printf_indptr _ => false
  | Event.sddmm_reference_host _ _ _ _ _ _ => false
  | Event.printf_report _ _ _ _ _ _ _ => false
  | Event.free_host => false
  | _ => true

/-- A kernel invocation that writes the output buffer `C_d`: `sddmm_cuda_csr` and
`sddmm_cuda_coo` are passed `C_d` as `out`; `cusparseSDDMM` writes `csr_values_d`. -/
def Event.writesC : Event → Bool
  | Event.kernel Strategy.csr => true
  | Event.kernel Strategy.coo => true
  | _ => false

/-! ## Floating-point arithmetic -/

/-- Rounding of a rational to the nearest integer, ties to the even one. -/
def roundHalfEven (x : ℚ) : ℤ :=
  if x - ⌊x⌋ < 1 / 2 then ⌊x⌋
  else if 1 / 2 < x - ⌊x⌋ then ⌊x⌋ + 1
  else if ⌊x⌋ % 2 = 0 then ⌊x⌋ else ⌊x⌋ + 1

/-- Exponent of the unit in the last place of `x` in a binary format with `p` significand bits
and least normal exponent `emin`: `e - (p - 1)` where `2^e <= |x| < 2^(e+1)`, with `e` not
below `emin` (subnormal range). -/
def ulpExp (p : ℕ) (emin : ℤ) (x : ℚ) : ℤ := max emin (Int.log 2 |x|) - ((p : ℤ) - 1)

/-- Rounding to the nearest value of the binary format with `p` significand bits and least
normal exponent `emin`, ties to even (the default IEEE 754 rounding), without overflow. -/
def roundFloat (p : ℕ) (emin : ℤ) (x : ℚ) : ℚ :=
  (roundHalfEven (x / 2 ^ ulpExp p emin x) : ℚ) * 2 ^ ulpExp p emin x

/-- Rounding to `float` (binary32: 24 significand bits, least normal exponent `-126`). -/
def toFloat (x : ℚ) : ℚ := roundFloat 24 (-126) x

/-- Rounding to `double` (binary64: 53 significand bits, least normal exponent `-1022`). -/
def toDouble (x : ℚ) : ℚ := roundFloat 53 (-1022) x

/-! ## Benchmark loops (lines 162-202, 210-246, 248-284) -/

/-- State of a benchmark loop: operations so far, the `float` accumulator `kernel_dur_msecs`,
and the number of completed timer spans (the index of the next value `elapsed_msecs()`
returns).  `GpuTimer` is declared in a utility header that is not part of the sources; its
`elapsed_msecs()` is taken to return a `float`, as `cudaEventElapsedTime` reports one, and the
values it returns are given by the function `el`. -/
structure Bench where
  trace : List Event
  kernel_dur_msecs : ℚ
  stops : Nat

/-- The loop of the `flush_l2` branch, by recursion on the number of iterations left:
`if (iter >= warmup_iter) start; kernel; if (iter >= warmup_iter) { stop; dur += elapsed; }`,
where `+=` is the `float` addition. -/
def flushLoop (s : Strategy) (flush_l2 : Bool) (el : Nat → ℚ) (warmup_iter : Nat) :
    Nat → Nat → Bench → Bench
  | 0, _, st => st
  | n + 1, iter, st =>
    let st1 : Bench :=
      if iter ≥ warmup_iter then { st with trace := st.trace ++ [Event.timer_start flush_l2] }
      else st
    let st2 : Bench := { st1 with trace := st1.trace ++ [Event.kernel s] }
    let st3 : Bench :=
      if iter ≥ warmup_iter then
        { trace := st2.trace ++ [Event.timer_stop]
          kernel_dur_msecs := toFloat (st2.kernel_dur_msecs + el st2.stops)
          stops := st2.stops + 1 }
      else st2
    flushLoop s flush_l2 el warmup_iter n (iter + 1) st3

/-- The loop of the `else` branch: `if (iter == warmup_iter) start; kernel;`. -/
def plainLoop (s : Strategy) (flush_l2 : Bool) (warmup_iter : Nat) :
    Nat → Nat → List Event → List Event
  | 0, _, tr => tr
  | n + 1, iter, tr =>
    let tr1 := if iter = warmup_iter then tr ++ [Event.timer_start flush_l2] else tr
    plainLoop s flush_l2 warmup_iter n (iter + 1) (tr1 ++ [Event.kernel s])

/-- One benchmark block with the iteration counts as parameters.  Both
`kernel_dur_msecs /= repeat_iter` and `gpu_timer.elapsed_msecs() / repeat_iter` divide a `float`
by the `int` count converted to `float`. -/
def benchmarkWith (warmup_iter repeat_iter : Nat) (s : Strategy) (flush_l2 : Bool)
    (el : Nat → ℚ) : Bench :=
  if flush_l2 then
    let st := flushLoop s flush_l2 el warmup_iter (warmup_iter + repeat_iter) 0 ⟨[], 0, 0⟩
    { st with kernel_dur_msecs := toFloat (st.kernel_dur_msecs / toFloat (repeat_iter : ℚ)) }
  else
    let tr := plainLoop s flush_l2 warmup_iter (warmup_iter + repeat_iter) 0 []
    ⟨tr ++ [Event.timer_stop], toFloat (el 0 / toFloat (repeat_iter : ℚ)), 1⟩

/-- `int warmup_iter = 10;` -/
def warmup_iter : Nat := 10

/-- `int repeat_iter = 100;` -/
def repeat_iter : Nat := 100

/-- One benchmark block of `main`. -/
def benchmark (s : Strategy) (flush_l2 : Bool) (el : Nat → ℚ) : Bench :=
  benchmarkWith warmup_iter repeat_iter s flush_l2 el

/-- `float MFlop_count = (float)nnz / 1e6 * K * 2;`: `nnz` is converted to `float`, the
division by the `double` constant `1e6` and the two multiplications are `double` operations
(`K` and `2` convert exactly), and the result is narrowed to `float`. -/
def MFlop_count (nnz K : Int) : ℚ :=
  toFloat (toDouble (toDouble (toDouble (toFloat (nnz : ℚ) / 1000000) * (K : ℚ)) * 2))

/-- `float gflops = MFlop_count / kernel_dur_msecs;`, a `float` division.  For
`kernel_dur_msecs = 0` the C value is an infinity or NaN, which has no counterpart here. -/
def gflops (nnz K : Int) (kernel_dur_msecs : ℚ) : ℚ :=
  toFloat (MFlop_count nnz K / kernel_dur_msecs)

/-- The report line printed after a benchmark block, with the operand shape, `nnz`, the mean
iteration time and the throughput it prints. -/
def report (s : Strategy) (M N K nnz : Int) (kernel_dur_msecs : ℚ) : Event :=
  Event.printf_report s M N K nnz kernel_dur_msecs (gflops nnz K kernel_dur_msecs)

/-- The throughput a report line carries (`0` for any other event). -/
def Event.throughput : Event → ℚ
  | Event.printf_report _ _ _ _ _ _ g => g
  | _ => 0

/-! ## The program `main` -/

/-- Everything `main` reads from its environment. -/
structure Input where
  argc : Nat
  atoiArgv2 : Int
  flush_l2 : Bool
  M : Int
  N : Int
  nnz : Int
  csr_indptr_buffer : List Int
  csr_indices_buffer : List Int
  hostAllocOk : Bool
  elapsed_msecs : Strategy → Nat → ℚ

/-- How a run ends: `return status`, a failed `assert` (the process is aborted), or an
out-of-bounds read in `main` itself. -/
inductive Outcome where
  | returned (status : Int)
  | aborted
  | fault (f : Fault)
  deriving DecidableEq

/-- The run ends with a non-zero status: a non-zero return value or an abort.  A fault is
undefined behaviour and promises nothing. -/
def Outcome.nonZeroExit : Outcome → Prop
  | Outcome.returned status => status ≠ 0
  | Outcome.aborted => True
  | Outcome.fault _ => False

/-- A run of `main`: the operations performed and how it ended. -/
structure Run where
  trace : List Event
  outcome : Outcome

/-- `EXIT_FAILURE` of `<cstdlib>`. -/
def EXIT_FAILURE : Int := 1

/-- Lines 72-75: `int K = 128; if (argc > 2) K = atoi(argv[2]);`. -/
def parseK (argc : Nat) (atoiArgv2 : Int) : Int :=
  if argc > 2 then atoiArgv2 else 128

/-- Lines 97-116: device reset, allocations and host-to-device copies. -/
def deviceSetup (M N K nnz : Int) (row_buffer : List Int) : List Event :=
  [Event.cudaDeviceReset, Event.cudaSetDevice,
   Event.cudaMalloc Buf.A_d, Event.cudaMalloc Buf.B_d, Event.cudaMalloc Buf.C_d,
   Event.cudaMalloc Buf.csr_values_d, Event.cudaMalloc Buf.csr_indptr_d,
   Event.cudaMalloc Buf.row_d, Event.cudaMalloc Buf.csr_indices_d,
   Event.cudaMemcpy Buf.A_d (M * K), Event.cudaMemcpy Buf.B_d (N * K),
   Event.cudaMemset Buf.C_d,
   Event.cudaMemcpy Buf.csr_values_d nnz, Event.cudaMemcpy Buf.csr_indptr_d (M + 1),
   Event.cudaMemcpy_row row_buffer nnz, Event.cudaMemcpy Buf.csr_indices_d nnz]

/-- Lines 129-158: cuSPARSE set-up, the first `cusparseSDDMM` call, and the copy of its result
back to the host. -/
def cusparseSetup (M N K nnz : Int) : List Event :=
  [Event.cusparseCreate, Event.cusparseCreateCsr M N nnz,
   Event.cusparseCreateDnMat (AMatDecsr M K), Event.cusparseCreateDnMat (BMatDecsr N K),
   Event.cusparseSDDMM_bufferSize, Event.cudaMalloc Buf.dBuffer,
   Event.cusparseSDDMM_preprocess, Event.kernel Strategy.cusparse,
   Event.cudaMemcpyToHost Buf.csr_values_d]

/-- One `if (1) { ... }` block: the benchmark loop followed by its report. -/
def benchmarkBlock (inp : Input) (K : Int) (s : Strategy) : List Event :=
  let b := benchmark s inp.flush_l2 (inp.elapsed_msecs s)
  b.trace ++ [report s inp.M inp.N K inp.nnz b.kernel_dur_msecs]

/-- Lines 288-306: release of host and device memory and of the cuSPARSE handles. -/
def cleanup : List Event :=
  List.replicate 5 Event.free_host ++
  [Event.cudaFree Buf.A_d, Event.cudaFree Buf.B_d, Event.cudaFree Buf.C_d,
   Event.cudaFree Buf.csr_values_d, Event.cudaFree Buf.row_d, Event.cudaFree Buf.csr_indptr_d,
   Event.cudaFree Buf.csr_indices_d, Event.cudaFree Buf.dBuffer] ++
  List.replicate 4 Event.cusparseDestroy

/-- Lines 97-306: everything `main` does after the reference computation.  Calls into the CUDA
runtime and cuSPARSE are recorded and taken to succeed. -/
def deviceRun (inp : Input) (K : Int) (row_buffer : List Int) : List Event :=
  deviceSetup inp.M inp.N K inp.nnz row_buffer ++ cusparseSetup inp.M inp.N K inp.nnz ++
  benchmarkBlock inp K Strategy.cusparse ++
  [Event.cudaMemset Buf.C_d] ++
  benchmarkBlock inp K Strategy.csr ++
  benchmarkBlock inp K Strategy.coo ++
  cleanup

/-- The program `main`.  `assert(K > 0 && ...)` is the `assert` of `<cassert>` with `NDEBUG`
undefined (the source defines no `NDEBUG`): a false condition aborts the process. -/
def main (inp : Input) : Run :=
  if inp.argc < 2 then
    ⟨[Event.printf_usage], Outcome.returned EXIT_FAILURE⟩
  else
    match expandRows inp.csr_indptr_buffer with
    | Except.error f => ⟨[Event.read_npz_file], Outcome.fault f⟩
    | Except.ok row_buffer =>
      let t1 := [Event.read_npz_file, Event.printf_finish inp.M inp.N inp.nnz]
      let K := parseK inp.argc inp.atoiArgv2
      if ¬ (K > 0) then
        ⟨t1, Outcome.aborted⟩
      else
        let t2 := t1 ++ List.replicate 5 Event.malloc_host
        if ¬ inp.hostAllocOk then
          ⟨t2 ++ [Event.printf_alloc_failed], Outcome.returned EXIT_FAILURE⟩
        else
          let t3 := t2 ++ List.replicate 3 Event.fill_random
          match readAt Site.printIndptr inp.csr_indptr_buffer 2 with
          | Except.error f => ⟨t3, Outcome.fault f⟩
          | Except.ok v =>
            ⟨t3 ++ [Event.printf_indptr v,
                Event.sddmm_reference_host inp.M inp.N K inp.nnz inp.csr_indptr_buffer
                  inp.csr_indices_buffer] ++ deviceRun inp K row_buffer,
             Outcome.returned 0⟩

/-- The operations of `main` up to and including the call of the reference computation. -/
def hostTrace (inp : Input) : List Event :=
  [Event.read_npz_file, Event.printf_finish inp.M inp.N inp.nnz] ++
    List.replicate 5 Event.malloc_host ++ List.replicate 3 Event.fill_random ++
    [Event.printf_indptr (entry inp.csr_indptr_buffer 2),
     Event.sddmm_reference_host inp.M inp.N (parseK inp.argc inp.atoiArgv2) inp.nnz
       inp.csr_indptr_buffer inp.csr_indices_buffer]

/-- The loader returned an indptr array with `M + 1` entries for some `M` that fits a C `int`. -/
def Input.Loaded (inp : Input) : Prop :=
  0 < inp.csr_indptr_buffer.length ∧ inp.csr_indptr_buffer.length ≤ 2 ^ 31

instance (inp : Input) : Decidable inp.Loaded := by
  unfold Input.Loaded; infer_instance

/-- The host path of `main` reaches the reference computation: the matrix argument is present,
`K` is positive, host allocation succeeds, and the loaded indptr array has at least the three
entries the `printf` of line 94 needs. -/
def Input.ReachesReference (inp : Input) : Prop :=
  2 ≤ inp.argc ∧ 0 < parseK inp.argc inp.atoiArgv2 ∧ inp.hostAllocOk = true ∧
    3 ≤ inp.csr_indptr_buffer.length ∧ inp.csr_indptr_buffer.length ≤ 2 ^ 31

instance (inp : Input) : Decidable inp.ReachesReference := by
  unfold Input.ReachesReference; infer_instance

/-- Every kernel invocation that writes `C_d` is preceded by a reset of `C_d` with no kernel
invocation writing `C_d` between that reset and the invocation. -/
def ResetBeforeEveryInvocation (tr : List Event) : Prop :=
  ∀ pre e post, tr = pre ++ e :: post → e.writesC = true →
    ∃ a b, pre = a ++ Event.cudaMemset Buf.C_d :: b ∧ ∀ x ∈ b, x.writesC = false

/-! ## Concrete runs -/

/-- A run on a one-row matrix without nonzeros: `argv[1]` only, `shape = (1, 1, 0)`,
`indptr = [0, 0]`, no indices. -/
def oneRowInput : Input where
  argc := 2
  atoiArgv2 := 0
  flush_l2 := false
  M := 1
  N := 1
  nnz := 0
  csr_indptr_buffer := [0, 0]
  csr_indices_buffer := []
  hostAllocOk := true
  elapsed_msecs := fun _ _ => 1

/-- A run without matrix argument (`argc = 1`). -/
def noArgInput : Input where
  argc := 1
  atoiArgv2 := 0
  flush_l2 := false
  M := 0
  N := 0
  nnz := 0
  csr_indptr_buffer := [0]
  csr_indices_buffer := []
  hostAllocOk := true
  elapsed_msecs := fun _ _ => 1

/-- A run with a `K` argument that parses to `-5` (`argc = 3`), on the view of the concrete
scenario of the specification. -/
def badKInput : Input where
  argc := 3
  atoiArgv2 := -5
  flush_l2 := false
  M := 4
  N := 4
  nnz := 4
  csr_indptr_buffer := [0, 1, 3, 3, 4]
  csr_indices_buffer := [1, 0, 2, 3]
  hostAllocOk := true
  elapsed_msecs := fun _ _ => 1

/-- A run on a `2 x 1` view whose only nonzero has column index `5 >= N = 1`. -/
def outOfRangeInput : Input where
  argc := 2
  atoiArgv2 := 0
  flush_l2 := false
  M := 2
  N := 1
  nnz := 1
  csr_indptr_buffer := [0, 1, 1]
  csr_indices_buffer := [5]
  hostAllocOk := true
  elapsed_msecs := fun _ _ => 1

/-- A run on the concrete scenario of the specification: `M = N = 4`, `nnz = 4`,
`rowStart = [0, 1, 3, 3, 4]`, `colIndex = [1, 0, 2, 3]`, default `K`, no cache flush. -/
def scenarioInput : Input where
  argc := 2
  atoiArgv2 := 0
  flush_l2 := false
  M := 4
  N := 4
  nnz := 4
  csr_indptr_buffer := [0, 1, 3, 3, 4]
  csr_indices_buffer := [1, 0, 2, 3]
  hostAllocOk := true
  elapsed_msecs := fun _ _ => 1

/-! ## Lemmas on the row expansion -/

theorem pushLoop_eq (row : Int) (n : Nat) (buf : List Int) :
    pushLoop row n buf = buf ++ List.replicate n row := by
  induction n generalizing buf with
  | zero => simp [pushLoop]
  | succ n ih =>
    rw [pushLoop, ih, List.append_assoc]
    congr 1

theorem loopBound_succ (M : Nat) (hM : M < 2 ^ 31) : loopBound (M + 1) = M := by
  unfold loopBound
  have h : M + 1 + 2 ^ 64 - 1 = M + 2 ^ 64 := by omega
  rw [h, Nat.add_mod_right]
  exact Nat.mod_eq_of_lt (by omega)

theorem readAt_of_lt (site : Site) (v : List Int) (i : Nat) (h : i < v.length) :
    readAt site v i = Except.ok (entry v i) := by
  simp [readAt, entry, List.getElem?_eq_getElem h]

theorem expandLoop_eq (indptr : List Int) (n i : Nat) (row : Int) (buf : List Int)
    (h : i + n + 1 = indptr.length) :
    expandLoop indptr n i row buf = Except.ok (buf ++ expandSpec (indptr.drop i) row) := by
  induction n generalizing i row buf with
  | zero =>
    have hi : i < indptr.length := by omega
    have hd : indptr.drop (i + 1) = [] := List.drop_eq_nil_of_le (by omega)
    rw [List.drop_eq_getElem_cons hi, hd]
    simp [expandLoop, expandSpec]
  | succ n ih =>
    have hi : i < indptr.length := by omega
    have hi1 : i + 1 < indptr.length := by omega
    rw [expandLoop, readAt_of_lt _ _ _ hi1, readAt_of_lt _ _ _ hi]
    simp only []
    rw [ih (i + 1) (row + 1) _ (by omega), pushLoop_eq, List.drop_eq_getElem_cons hi,
      List.drop_eq_getElem_cons hi1, expandSpec, List.append_assoc]
    simp [entry, List.getElem?_eq_getElem hi, List.getElem?_eq_getElem hi1]

theorem expandRows_eq (M : Nat) (rowStart : List Int) (hM : M < 2 ^ 31)
    (hlen : rowStart.length = M + 1) :
    expandRows rowStart = Except.ok (expandSpec rowStart 0) := by
  unfold expandRows
  rw [hlen, loopBound_succ M hM, expandLoop_eq rowStart M 0 0 [] (by omega)]
  simp

theorem entry_cons_succ (a : Int) (l : List Int) (k : Nat) :
    entry (a :: l) (k + 1) = entry l k := by
  simp [entry]

theorem entry_cons_zero (a : Int) (l : List Int) : entry (a :: l) 0 = a := by
  simp [entry]

theorem entry_mem (l : List Int) (k : Nat) (h : k < l.length) : entry l k ∈ l := by
  simp only [entry, List.getD_eq_getElem?_getD, List.getElem?_eq_getElem h, Option.getD_some]
  exact List.getElem_mem h

theorem expandSpec_length (a : Int) (l : List Int) (row : Int)
    (hs : (a :: l).Pairwise (· ≤ ·)) :
    ((expandSpec (a :: l) row).length : Int) = entry (a :: l) l.length - a := by
  induction l generalizing a row with
  | nil => simp [expandSpec, entry]
  | cons b l ih =>
    rw [List.pairwise_cons] at hs
    have hab : a ≤ b := hs.1 b (List.mem_cons_self _ _)
    have := ih b (row + 1) hs.2
    rw [expandSpec, List.length_append, List.length_replicate, Nat.cast_add, this,
      List.length_cons, entry_cons_succ, Int.toNat_of_nonneg (by omega)]
    omega

theorem expandSpec_ge (l : List Int) (row x : Int) (hx : x ∈ expandSpec l row) : row ≤ x := by
  induction l generalizing row with
  | nil => simp [expandSpec] at hx
  | cons a l ih =>
    cases l with
    | nil => simp [expandSpec] at hx
    | cons b l =>
      rw [expandSpec, List.mem_append] at hx
      rcases hx with hx | hx
      · rw [(List.mem_replicate.mp hx).2]
      · have := ih (row + 1) hx
        omega

theorem entry_ge_head (b : Int) (l : List Int) (hs : (b :: l).Pairwise (· ≤ ·)) (k : Nat)
    (hk : k < (b :: l).length) : b ≤ entry (b :: l) k := by
  cases k with
  | zero => simp [entry]
  | succ k =>
    rw [entry_cons_succ]
    rw [List.pairwise_cons] at hs
    exact hs.1 _ (entry_mem l k (by simpa using hk))

theorem expandSpec_getElem (a : Int) (l : List Int) (row : Int)
    (hs : (a :: l).Pairwise (· ≤ ·)) (p k : Nat)
    (hp : p < (expandSpec (a :: l) row).length) (hk : k < l.length) :
    (expandSpec (a :: l) row)[p]? = some (row + (k : Int)) ↔
      entry (a :: l) k ≤ a + (p : Int) ∧ a + (p : Int) < entry (a :: l) (k + 1) := by
  induction l generalizing a row p k with
  | nil => simp at hk
  | cons b l ih =>
    have hs2 := hs
    rw [List.pairwise_cons] at hs2
    have hab : a ≤ b := hs2.1 b (List.mem_cons_self _ _)
    have hd : ((b - a).toNat : Int) = b - a := Int.toNat_of_nonneg (by omega)
    rw [expandSpec] at hp ⊢
    rw [List.length_append, List.length_replicate] at hp
    by_cases hpd : p < (b - a).toNat
    · rw [List.getElem?_append_left (by simpa using hpd), List.getElem?_replicate_of_lt hpd]
      cases k with
      | zero =>
        simp only [entry_cons_zero, entry_cons_succ, Nat.cast_zero, add_zero, true_iff]
        omega
      | succ k =>
        have hge := entry_ge_head b l hs2.2 k (by simp only [List.length_cons] at hk ⊢; omega)
        rw [entry_cons_succ]
        constructor
        · intro h
          simp only [Option.some.injEq] at h
          push_cast at h
          omega
        · intro h
          omega
    · have hle : (b - a).toNat ≤ p := Nat.le_of_not_lt hpd
      rw [List.getElem?_append_right (by simpa using hle), List.length_replicate]
      have hp2 : p - (b - a).toNat < (expandSpec (b :: l) (row + 1)).length := by omega
      have hcast : ((p - (b - a).toNat : Nat) : Int) = (p : Int) - (b - a) := by
        rw [Nat.cast_sub hle, hd]
      cases k with
      | zero =>
        simp only [entry_cons_zero, entry_cons_succ, Nat.cast_zero, add_zero]
        constructor
        · intro h
          have hmem : row ∈ expandSpec (b :: l) (row + 1) := List.getElem?_mem h
          have := expandSpec_ge _ _ _ hmem
          omega
        · intro h
          omega
      | succ k =>
        have hk2 : k < l.length := by simpa using hk
        have key := ih b (row + 1) hs2.2 (p - (b - a).toNat) k hp2 hk2
        rw [hcast] at key
        rw [entry_cons_succ, entry_cons_succ]
        have e1 : row + ((k + 1 : Nat) : Int) = row + 1 + (k : Int) := by push_cast; ring
        have e2 : b + ((p : Int) - (b - a)) = a + (p : Int) := by ring
        rw [e1, key, e2, entry_cons_succ]

theorem expandRows_of_loaded (indptr : List Int) (h0 : 0 < indptr.length)
    (h1 : indptr.length ≤ 2 ^ 31) :
    expandRows indptr = Except.ok (expandSpec indptr 0) :=
  expandRows_eq (indptr.length - 1) indptr (by omega) (by omega)

theorem entry_mono (l : List Int) (hs : l.Pairwise (· ≤ ·)) (i j : Nat) (hij : i ≤ j)
    (hj : j < l.length) : entry l i ≤ entry l j := by
  induction l generalizing i j with
  | nil => simp at hj
  | cons a l ih =>
    cases i with
    | zero => rw [entry_cons_zero]; exact entry_ge_head a l hs j hj
    | succ i =>
      cases j with
      | zero => omega
      | succ j =>
        rw [entry_cons_succ, entry_cons_succ]
        rw [List.pairwise_cons] at hs
        exact ih hs.2 i j (by omega) (by simpa using hj)

theorem expandSpec_lt (l : List Int) (row x : Int) (hx : x ∈ expandSpec l row) :
    x < row + ((l.length - 1 : Nat) : Int) := by
  induction l generalizing row with
  | nil => simp [expandSpec] at hx
  | cons a l ih =>
    cases l with
    | nil => simp [expandSpec] at hx
    | cons b l =>
      rw [expandSpec, List.mem_append] at hx
      rcases hx with hx | hx
      · rw [(List.mem_replicate.mp hx).2]
        simp only [List.length_cons, Nat.add_sub_cancel]
        push_cast
        omega
      · have := ih (row + 1) hx
        simp only [List.length_cons, Nat.add_sub_cancel] at this ⊢
        push_cast
        omega

theorem expandSpec_row_iff (M : Nat) (rowStart : List Int) (hv : ValidIndptr M rowStart)
    (p r : Nat) (hp : p < (expandSpec rowStart 0).length) (hr : r < M) :
    (expandSpec rowStart 0)[p]? = some (r : Int) ↔
      entry rowStart r ≤ (p : Int) ∧ (p : Int) < entry rowStart (r + 1) := by
  obtain ⟨hlen, h0, hs⟩ := hv
  cases rowStart with
  | nil => simp at hlen
  | cons a l =>
    rw [entry_cons_zero] at h0
    subst h0
    have hl : l.length = M := by simpa using hlen
    have := expandSpec_getElem 0 l 0 hs p r hp (by omega)
    simpa using this

theorem expandSpec_length_valid (M : Nat) (rowStart : List Int) (hv : ValidIndptr M rowStart) :
    ((expandSpec rowStart 0).length : Int) = entry rowStart M := by
  obtain ⟨hlen, h0, hs⟩ := hv
  cases rowStart with
  | nil => simp at hlen
  | cons a l =>
    rw [entry_cons_zero] at h0
    subst h0
    have hl : l.length = M := by simpa using hlen
    rw [expandSpec_length 0 l 0 hs, hl]
    simp

theorem expandSpec_row_exists (M : Nat) (rowStart : List Int) (hv : ValidIndptr M rowStart)
    (p : Nat) (hp : p < (expandSpec rowStart 0).length) :
    ∃ r : Nat, r < M ∧ (expandSpec rowStart 0)[p]? = some (r : Int) := by
  have hx : (expandSpec rowStart 0)[p]? = some ((expandSpec rowStart 0)[p]) :=
    List.getElem?_eq_getElem hp
  have hmem := List.getElem?_mem hx
  have h1 := expandSpec_ge _ _ _ hmem
  have h2 := expandSpec_lt _ _ _ hmem
  rw [hv.1] at h2
  simp only [Nat.add_sub_cancel, zero_add] at h2
  refine ⟨((expandSpec rowStart 0)[p]).toNat, by omega, ?_⟩
  rw [hx, Int.toNat_of_nonneg h1]

theorem entry_of_getElem? (l : List Int) (q : Nat) (x : Int) (h : l[q]? = some x) :
    entry l q = x := by
  simp [entry, h]

/-! ## Lemmas on the sampled product -/

theorem foldl_add_eq_sum {α : Type} [Semiring α] (f : Nat → α) (K : Nat) :
    (List.range K).foldl (fun acc t => acc + f t) 0 = ∑ t ∈ Finset.range K, f t := by
  induction K with
  | zero => simp
  | succ K ih => rw [List.range_succ, List.foldl_append, ih, Finset.sum_range_succ]; simp

theorem dotRows_eq_sum {α : Type} [Semiring α] (K : Nat) (A B : List α) (r c : Nat) :
    dotRows K A B r c = ∑ t ∈ Finset.range K, A.getD (r * K + t) 0 * B.getD (c * K + t) 0 :=
  foldl_add_eq_sum _ K

theorem writeRange_length {α : Type} (f : Nat → α) (n p0 : Nat) (out : List α) :
    (writeRange f n p0 out).length = out.length := by
  induction n generalizing p0 out with
  | zero => rfl
  | succ n ih => rw [writeRange, ih, List.length_set]

theorem writeRange_getElem? {α : Type} (f : Nat → α) (n p0 : Nat) (out : List α) (q : Nat) :
    (writeRange f n p0 out)[q]? =
      if p0 ≤ q ∧ q < p0 + n ∧ q < out.length then some (f q) else out[q]? := by
  induction n generalizing p0 out with
  | zero =>
    rw [writeRange, if_neg (by omega)]
  | succ n ih =>
    rw [writeRange, ih, List.length_set, List.getElem?_set]
    by_cases h1 : p0 = q
    · subst h1
      by_cases h2 : p0 < out.length
      · rw [if_neg (by omega), if_pos rfl, if_pos h2, if_pos (by omega)]
      · rw [if_neg (by omega), if_pos rfl, if_neg h2, if_neg (by omega)]
        exact (List.getElem?_eq_none (by omega)).symm
    · rw [if_neg h1]
      by_cases h3 : p0 + 1 ≤ q ∧ q < p0 + 1 + n ∧ q < out.length
      · rw [if_pos h3, if_pos (by omega)]
      · rw [if_neg h3, if_neg (by omega)]

theorem csrLoop_getElem? {α : Type} [Semiring α] (M k : Nat) (rowptr colind : List Int)
    (D1 D2 : List α) (hv : ValidIndptr M rowptr) (n r : Nat) (out : List α) (q : Nat)
    (hn : r + n = M) :
    (csrLoop k rowptr colind D1 D2 n r out)[q]? =
      if entry rowptr r ≤ (q : Int) ∧ (q : Int) < entry rowptr M ∧ q < out.length then
        some (dotRows k D1 D2 (entry (expandSpec rowptr 0) q).toNat (entry colind q).toNat)
      else out[q]? := by
  induction n generalizing r out with
  | zero =>
    have : r = M := by omega
    subst this
    rw [csrLoop, if_neg (by omega)]
  | succ n ih =>
    have hlen := hv.1
    have hs := hv.2.2
    have h0 : 0 ≤ entry rowptr r := by
      have := entry_mono rowptr hs 0 r (by omega) (by omega)
      rw [hv.2.1] at this
      exact this
    have h1 : entry rowptr r ≤ entry rowptr (r + 1) :=
      entry_mono rowptr hs r (r + 1) (by omega) (by omega)
    have h2 : entry rowptr (r + 1) ≤ entry rowptr M :=
      entry_mono rowptr hs (r + 1) M (by omega) (by omega)
    have hlo : ((entry rowptr r).toNat : Int) = entry rowptr r := Int.toNat_of_nonneg h0
    have hcnt : ((entry rowptr (r + 1) - entry rowptr r).toNat : Int) =
        entry rowptr (r + 1) - entry rowptr r := Int.toNat_of_nonneg (by omega)
    rw [csrLoop, ih (r + 1) _ (by omega), writeRange_length, writeRange_getElem?]
    by_cases hq : q < out.length
    · by_cases ha : entry rowptr (r + 1) ≤ (q : Int)
      · by_cases hb : (q : Int) < entry rowptr M
        · rw [if_pos ⟨ha, hb, hq⟩, if_pos ⟨by omega, hb, hq⟩]
        · rw [if_neg (by tauto), if_neg (by omega), if_neg (by tauto)]
      · by_cases hc : entry rowptr r ≤ (q : Int)
        · rw [if_neg (by tauto), if_pos (by omega), if_pos ⟨hc, by omega, hq⟩]
          have hp : q < (expandSpec rowptr 0).length := by
            have := expandSpec_length_valid M rowptr hv
            omega
          have hrow := (expandSpec_row_iff M rowptr hv q r hp (by omega)).mpr ⟨hc, by omega⟩
          rw [entry_of_getElem? _ _ _ hrow, Int.toNat_ofNat]
        · rw [if_neg (by tauto), if_neg (by omega), if_neg (by tauto)]
    · rw [if_neg (by tauto), if_neg (by tauto), if_neg (by tauto)]

theorem rowOf_eq (M : Nat) (rowStart : List Int) (hv : ValidIndptr M rowStart) (p r : Nat)
    (hr : r < M) (hrow : (expandSpec rowStart 0)[p]? = some (r : Int)) :
    rowOf rowStart p = r := by
  have hp : p < (expandSpec rowStart 0).length := by
    by_contra hcon
    rw [List.getElem?_eq_none (by omega)] at hrow
    exact Option.noConfusion hrow
  have hrange := (expandSpec_row_iff M rowStart hv p r hp hr).mp hrow
  unfold rowOf
  rw [hv.1, Nat.add_sub_cancel]
  cases hf : (List.range M).find?
      (fun r => decide (entry rowStart r ≤ (p : Int) ∧ (p : Int) < entry rowStart (r + 1))) with
  | none =>
    rw [List.find?_eq_none] at hf
    have := hf r (List.mem_range.mpr hr)
    simp only [decide_eq_true_eq] at this
    exact absurd hrange this
  | some r2 =>
    have h1 := List.find?_some hf
    have h2 := List.mem_range.mp (List.mem_of_find?_eq_some hf)
    simp only [decide_eq_true_eq] at h1
    have h3 := (expandSpec_row_iff M rowStart hv p r2 hp h2).mpr h1
    rw [hrow] at h3
    simp only [Option.some.injEq, Nat.cast_inj] at h3
    simp [h3]

/-! ## Lemmas on floating-point rounding -/

theorem roundHalfEven_abs_sub_le (x : ℚ) : |(roundHalfEven x : ℚ) - x| ≤ 1 / 2 := by
  have h0 : 0 ≤ x - ⌊x⌋ := by linarith [Int.floor_le x]
  have h1 : x - ⌊x⌋ < 1 := by linarith [Int.lt_floor_add_one x]
  unfold roundHalfEven
  split_ifs with ha hb hc
  · rw [abs_le]; constructor <;> linarith
  · rw [abs_le]; push_cast; constructor <;> linarith
  · rw [abs_le]; constructor <;> linarith
  · rw [abs_le]; push_cast; constructor <;> linarith

theorem roundHalfEven_eq_of_abs_sub_lt (x : ℚ) (n : ℤ) (h : |x - n| < 1 / 2) :
    roundHalfEven x = n := by
  rw [abs_lt] at h
  obtain ⟨h1, h2⟩ := h
  by_cases hx : (n : ℚ) ≤ x
  · have hf : ⌊x⌋ = n := by
      rw [Int.floor_eq_iff]; constructor <;> linarith
    unfold roundHalfEven
    rw [hf, if_pos (by linarith)]
  · have hf : ⌊x⌋ = n - 1 := by
      rw [Int.floor_eq_iff]; push_cast; constructor <;> linarith
    unfold roundHalfEven
    rw [hf]
    push_cast
    rw [if_neg (by linarith), if_pos (by linarith)]
    ring

theorem log2_eq_of_bounds (y : ℚ) (e : ℤ) (hlo : (2 : ℚ) ^ e ≤ y) (hhi : y < (2 : ℚ) ^ (e + 1)) :
    Int.log 2 y = e := by
  have hy : 0 < y := lt_of_lt_of_le (by positivity) hlo
  have h1 : e ≤ Int.log 2 y := by
    rw [← Int.zpow_le_iff_le_log (by norm_num) hy]
    simpa using hlo
  have h2 : Int.log 2 y < e + 1 := by
    rw [← Int.lt_zpow_iff_log_lt (by norm_num) hy]
    simpa using hhi
  omega

theorem roundFloat_zero (p : ℕ) (emin : ℤ) : roundFloat p emin 0 = 0 := by
  simp [roundFloat, roundHalfEven]

theorem roundFloat_eq (p : ℕ) (emin : ℤ) (x : ℚ) (e s n : ℤ) (he : emin ≤ e)
    (hs : s = e - ((p : ℤ) - 1))
    (hlo : (2 : ℚ) ^ e ≤ |x|) (hhi : |x| < (2 : ℚ) ^ (e + 1))
    (hn : |x / 2 ^ s - n| < 1 / 2) :
    roundFloat p emin x = (n : ℚ) * 2 ^ s := by
  have hlog := log2_eq_of_bounds |x| e hlo hhi
  have hu : ulpExp p emin x = s := by
    unfold ulpExp
    rw [hlog, max_eq_right he, hs]
  unfold roundFloat
  rw [hu, roundHalfEven_eq_of_abs_sub_lt _ n hn]

theorem roundFloat_bounds (p : ℕ) (emin : ℤ) (x : ℚ) (hx : (2 : ℚ) ^ emin ≤ x) :
    x * (1 - 1 / 2 ^ p) ≤ roundFloat p emin x ∧ roundFloat p emin x ≤ x * (1 + 1 / 2 ^ p) := by
  have hpos : 0 < x := lt_of_lt_of_le (by positivity) hx
  have habs : |x| = x := abs_of_pos hpos
  have hle : emin ≤ Int.log 2 x := by
    rw [← Int.zpow_le_iff_le_log (by norm_num) hpos]
    simpa using hx
  have hself : (2 : ℚ) ^ Int.log 2 x ≤ x := by
    simpa using Int.zpow_log_le_self (b := 2) (by norm_num) hpos
  have hu : ulpExp p emin x = Int.log 2 x - ((p : ℤ) - 1) := by
    unfold ulpExp
    rw [habs, max_eq_right hle]
  set s := ulpExp p emin x with hs
  have hspos : (0 : ℚ) < 2 ^ s := by positivity
  have herr := roundHalfEven_abs_sub_le (x / 2 ^ s)
  have hulp : (2 : ℚ) ^ s = 2 ^ Int.log 2 x * (2 / 2 ^ p) := by
    rw [hu, zpow_sub₀ (by norm_num), zpow_sub₀ (by norm_num), zpow_natCast, zpow_one]
    field_simp
  have hhalf : (2 : ℚ) ^ s / 2 ≤ x * (1 / 2 ^ p) := by
    rw [hulp]
    have : (0 : ℚ) < 1 / 2 ^ p := by positivity
    calc (2 : ℚ) ^ Int.log 2 x * (2 / 2 ^ p) / 2 = 2 ^ Int.log 2 x * (1 / 2 ^ p) := by ring
      _ ≤ x * (1 / 2 ^ p) := by gcongr
  have hR : roundFloat p emin x - x = ((roundHalfEven (x / 2 ^ s) : ℚ) - x / 2 ^ s) * 2 ^ s := by
    unfold roundFloat
    rw [← hs]
    field_simp
  have habsR : |roundFloat p emin x - x| ≤ 2 ^ s / 2 := by
    rw [hR, abs_mul, abs_of_pos hspos]
    calc |(roundHalfEven (x / 2 ^ s) : ℚ) - x / 2 ^ s| * 2 ^ s ≤ 1 / 2 * 2 ^ s := by gcongr
      _ = 2 ^ s / 2 := by ring
  rw [abs_le] at habsR
  constructor <;> linarith [habsR.1, habsR.2]

theorem gflops_example : gflops 4 2 (1 / 2) = 8796093 / 2 ^ 38 := by
  have h1 : toFloat ((4 : Int) : ℚ) = 4 := by
    rw [toFloat, roundFloat_eq 24 (-126) _ 2 (-21) 8388608 (by norm_num) (by norm_num)
      (by norm_num) (by norm_num) (by norm_num)]
    norm_num
  have h2 : toDouble (4 / 1000000) = 4722366482869645 / 2 ^ 70 := by
    rw [toDouble, roundFloat_eq 53 (-1022) _ (-18) (-70) 4722366482869645 (by norm_num)
      (by norm_num) (by norm_num [abs_of_pos]) (by norm_num [abs_of_pos])
      (by rw [abs_lt]; norm_num)]
    norm_num
  have h3 : toDouble (4722366482869645 / 2 ^ 70 * ((2 : Int) : ℚ)) = 4722366482869645 / 2 ^ 69 := by
    rw [toDouble, roundFloat_eq 53 (-1022) _ (-17) (-69) 4722366482869645 (by norm_num)
      (by norm_num) (by norm_num [abs_of_pos]) (by norm_num [abs_of_pos])
      (by rw [abs_lt]; norm_num)]
    norm_num
  have h4 : toDouble (4722366482869645 / 2 ^ 69 * 2) = 4722366482869645 / 2 ^ 68 := by
    rw [toDouble, roundFloat_eq 53 (-1022) _ (-16) (-68) 4722366482869645 (by norm_num)
      (by norm_num) (by norm_num [abs_of_pos]) (by norm_num [abs_of_pos])
      (by rw [abs_lt]; norm_num)]
    norm_num
  have h5 : toFloat (4722366482869645 / 2 ^ 68) = 8796093 / 2 ^ 39 := by
    rw [toFloat, roundFloat_eq 24 (-126) _ (-16) (-39) 8796093 (by norm_num)
      (by norm_num) (by norm_num [abs_of_pos]) (by norm_num [abs_of_pos])
      (by rw [abs_lt]; norm_num)]
    norm_num
  have h6 : toFloat (8796093 / 2 ^ 39 / (1 / 2)) = 8796093 / 2 ^ 38 := by
    rw [toFloat, roundFloat_eq 24 (-126) _ (-15) (-38) 8796093 (by norm_num)
      (by norm_num) (by norm_num [abs_of_pos]) (by norm_num [abs_of_pos])
      (by rw [abs_lt]; norm_num)]
    norm_num
  rw [gflops, MFlop_count, h1, h2, h3, h4, h5, h6]

theorem round_step (p : ℕ) (emin : ℤ) (x X L U : ℚ) (_hX : 0 < X)
    (hlo : X * L ≤ x) (hhi : x ≤ X * U) (hnorm : (2 : ℚ) ^ emin ≤ X * L) :
    X * (L * (1 - 1 / 2 ^ p)) ≤ roundFloat p emin x ∧
      roundFloat p emin x ≤ X * (U * (1 + 1 / 2 ^ p)) := by
  obtain ⟨h1, h2⟩ := roundFloat_bounds p emin x (le_trans hnorm hlo)
  have hu0 : (0 : ℚ) ≤ 1 - 1 / 2 ^ p := by
    have : (1 : ℚ) / 2 ^ p ≤ 1 := by
      rw [div_le_one (by positivity)]
      exact one_le_pow₀ (by norm_num)
    linarith
  have hu1 : (0 : ℚ) ≤ 1 + 1 / 2 ^ p := by positivity
  constructor
  · calc X * (L * (1 - 1 / 2 ^ p)) = X * L * (1 - 1 / 2 ^ p) := by ring
      _ ≤ x * (1 - 1 / 2 ^ p) := mul_le_mul_of_nonneg_right hlo hu0
      _ ≤ roundFloat p emin x := h1
  · calc roundFloat p emin x ≤ x * (1 + 1 / 2 ^ p) := h2
      _ ≤ X * U * (1 + 1 / 2 ^ p) := mul_le_mul_of_nonneg_right hhi hu1
      _ = X * (U * (1 + 1 / 2 ^ p)) := by ring

theorem gflops_bounds (nnz K : Int) (d : ℚ) (hnnz : 1 ≤ nnz) (hK : 1 ≤ K) (hd : 0 < d)
    (hd2 : d ≤ 2 ^ 64) :
    (nnz : ℚ) / 1000000 * (K : ℚ) * 2 / d * (1 - 1 / 2 ^ 22) ≤ gflops nnz K d ∧
      gflops nnz K d ≤ (nnz : ℚ) / 1000000 * (K : ℚ) * 2 / d * (1 + 1 / 2 ^ 22) := by
  have hn : (1 : ℚ) ≤ (nnz : ℚ) := by exact_mod_cast hnnz
  have hk : (1 : ℚ) ≤ (K : ℚ) := by exact_mod_cast hK
  unfold gflops MFlop_count toFloat toDouble
  generalize (nnz : ℚ) = n at hn ⊢
  generalize (K : ℚ) = k at hk ⊢
  have hn0 : 0 < n := by linarith
  have hk0 : 0 < k := by linarith
  have hnk : 1 ≤ n * k := one_le_mul_of_one_le_of_one_le hn hk
  have hq : 1 / 2 ^ 64 ≤ n * k / d := by
    rw [div_le_div_iff₀ (by positivity) hd]
    nlinarith
  -- (float)nnz
  have s1 := round_step 24 (-126) n n 1 1 hn0 (by linarith) (by linarith)
    (by have : (2 : ℚ) ^ (-126 : ℤ) ≤ 1 := by norm_num
        linarith)
  -- / 1e6, in double
  have s2 := round_step 53 (-1022) (roundFloat 24 (-126) n / 1000000) (n / 1000000)
    (1 * (1 - 1 / 2 ^ 24)) (1 * (1 + 1 / 2 ^ 24)) (by positivity)
    (by have := s1.1; linarith) (by have := s1.2; linarith)
    (by have : (2 : ℚ) ^ (-1022 : ℤ) ≤ 1 / 1000000 * (1 * (1 - 1 / 2 ^ 24)) := by norm_num
        linarith)
  -- * K, in double
  have s3 := round_step 53 (-1022) (roundFloat 53 (-1022) (roundFloat 24 (-126) n / 1000000) * k) (n / 1000000 * k)
    ((1 * (1 - 1 / 2 ^ 24)) * (1 - 1 / 2 ^ 53))
    ((1 * (1 + 1 / 2 ^ 24)) * (1 + 1 / 2 ^ 53)) (by positivity)
    (by have := mul_le_mul_of_nonneg_right s2.1 hk0.le; linarith)
    (by have := mul_le_mul_of_nonneg_right s2.2 hk0.le; linarith)
    (by have : (2 : ℚ) ^ (-1022 : ℤ) ≤ 1 / 1000000 * ((1 * (1 - 1 / 2 ^ 24)) * (1 - 1 / 2 ^ 53)) := by
          norm_num
        linarith)
  -- * 2, in double
  have s4 := round_step 53 (-1022) (roundFloat 53 (-1022) (roundFloat 53 (-1022) (roundFloat 24 (-126) n / 1000000) * k) * 2)
    (n / 1000000 * k * 2)
    (((1 * (1 - 1 / 2 ^ 24)) * (1 - 1 / 2 ^ 53)) * (1 - 1 / 2 ^ 53))
    (((1 * (1 + 1 / 2 ^ 24)) * (1 + 1 / 2 ^ 53)) * (1 + 1 / 2 ^ 53)) (by positivity)
    (by have := s3.1; linarith)
    (by have := s3.2; linarith)
    (by have : (2 : ℚ) ^ (-1022 : ℤ) ≤ 2 / 1000000 * (((1 * (1 - 1 / 2 ^ 24)) * (1 - 1 / 2 ^ 53)) * (1 - 1 / 2 ^ 53)) := by
          norm_num
        linarith)
  -- narrowing to float
  have s5 := round_step 24 (-126) (roundFloat 53 (-1022) (roundFloat 53 (-1022) (roundFloat 53 (-1022) (roundFloat 24 (-126) n / 1000000) * k) * 2))
    (n / 1000000 * k * 2)
    ((((1 * (1 - 1 / 2 ^ 24)) * (1 - 1 / 2 ^ 53)) * (1 - 1 / 2 ^ 53)) * (1 - 1 / 2 ^ 53))
    ((((1 * (1 + 1 / 2 ^ 24)) * (1 + 1 / 2 ^ 53)) * (1 + 1 / 2 ^ 53)) * (1 + 1 / 2 ^ 53)) (by positivity)
    (by have := s4.1; linarith)
    (by have := s4.2; linarith)
    (by have : (2 : ℚ) ^ (-126 : ℤ) ≤ 2 / 1000000 * ((((1 * (1 - 1 / 2 ^ 24)) * (1 - 1 / 2 ^ 53)) * (1 - 1 / 2 ^ 53)) * (1 - 1 / 2 ^ 53)) := by
          norm_num
        linarith)
  -- / kernel_dur_msecs, in float
  have e6 : ∀ c : ℚ, n / 1000000 * k * 2 / d * c = n * k / d * (2 / 1000000 * c) := by
    intro c; ring
  have s6 := round_step 24 (-126) (roundFloat 24 (-126) (roundFloat 53 (-1022) (roundFloat 53 (-1022) (roundFloat 53 (-1022) (roundFloat 24 (-126) n / 1000000) * k) * 2)) / d)
    (n / 1000000 * k * 2 / d)
    (((((1 * (1 - 1 / 2 ^ 24)) * (1 - 1 / 2 ^ 53)) * (1 - 1 / 2 ^ 53)) * (1 - 1 / 2 ^ 53)) * (1 - 1 / 2 ^ 24))
    (((((1 * (1 + 1 / 2 ^ 24)) * (1 + 1 / 2 ^ 53)) * (1 + 1 / 2 ^ 53)) * (1 + 1 / 2 ^ 53)) * (1 + 1 / 2 ^ 24)) (by positivity)
    (by have := div_le_div_of_nonneg_right s5.1 hd.le
        calc _ = _ := by ring
          _ ≤ _ := this)
    (by have := div_le_div_of_nonneg_right s5.2 hd.le
        calc _ ≤ _ := this
          _ = _ := by ring)
    (by rw [e6]
        have : (2 : ℚ) ^ (-126 : ℤ) ≤ 1 / 2 ^ 64 * (2 / 1000000 * (((((1 * (1 - 1 / 2 ^ 24)) * (1 - 1 / 2 ^ 53)) * (1 - 1 / 2 ^ 53)) * (1 - 1 / 2 ^ 53)) * (1 - 1 / 2 ^ 24))) := by
          norm_num
        refine le_trans this ?_
        gcongr)
  have hT : 0 < n / 1000000 * k * 2 / d := by positivity
  constructor
  · refine le_trans ?_ s6.1
    apply mul_le_mul_of_nonneg_left _ hT.le
    norm_num
  · refine le_trans s6.2 ?_
    apply mul_le_mul_of_nonneg_left _ hT.le
    norm_num

theorem toFloat_hundred : toFloat 100 = 100 := by
  rw [toFloat, roundFloat_eq 24 (-126) _ 6 (-17) 13107200 (by norm_num) (by norm_num)
    (by norm_num) (by norm_num) (by norm_num)]
  norm_num

theorem gflops_zero (K : Int) (d : ℚ) : gflops 0 K d = 0 := by
  simp [gflops, MFlop_count, toFloat, toDouble, roundFloat_zero]

/-! ## Lemmas on `main` and on the benchmark loops -/

theorem main_of_reachesReference (inp : Input) (h : inp.ReachesReference) :
    main inp = ⟨hostTrace inp ++
        deviceRun inp (parseK inp.argc inp.atoiArgv2) (expandSpec inp.csr_indptr_buffer 0),
      Outcome.returned 0⟩ := by
  obtain ⟨hargc, hK, halloc, h3, hle⟩ := h
  have hnot : ¬ inp.argc < 2 := by omega
  unfold main
  rw [if_neg hnot, expandRows_of_loaded _ (by omega) hle]
  simp only []
  rw [if_neg (by simpa using hK), if_neg (by simp [halloc]),
    readAt_of_lt _ _ _ (by omega)]
  simp [hostTrace]

/-- The three operations of one timed iteration in flush mode. -/
theorem flushLoop_timed (s : Strategy) (f : Bool) (el : Nat → ℚ) (w n iter : Nat) (st : Bench)
    (h : w ≤ iter) :
    flushLoop s f el w n iter st =
      ⟨st.trace ++
          (List.replicate n [Event.timer_start f, Event.kernel s, Event.timer_stop]).flatten,
        (List.range n).foldl (fun acc j => toFloat (acc + el (st.stops + j)))
          st.kernel_dur_msecs,
        st.stops + n⟩ := by
  induction n generalizing iter st with
  | zero => simp [flushLoop]
  | succ n ih =>
    rw [flushLoop]
    simp only [ge_iff_le, h, if_true]
    rw [ih (iter + 1) _ (by omega)]
    simp only [List.replicate_succ, List.flatten_cons, List.append_assoc, List.cons_append,
      List.nil_append, Bench.mk.injEq, true_and]
    constructor
    · rw [List.range_succ_eq_map, List.foldl_cons, List.foldl_map]
      have : ∀ j, st.stops + 1 + j = st.stops + Nat.succ j := by intro j; omega
      simp only [this, add_zero]
    · omega

theorem flushLoop_warm (s : Strategy) (f : Bool) (el : Nat → ℚ) (w k n iter : Nat) (st : Bench)
    (h : iter + k ≤ w) :
    flushLoop s f el w (k + n) iter st =
      flushLoop s f el w n (iter + k)
        ⟨st.trace ++ List.replicate k (Event.kernel s), st.kernel_dur_msecs, st.stops⟩ := by
  induction k generalizing iter st with
  | zero => simp
  | succ k ih =>
    have hlt : ¬ w ≤ iter := by omega
    rw [show k + 1 + n = (k + n) + 1 by omega, flushLoop]
    simp only [ge_iff_le, hlt, if_false]
    rw [ih (iter + 1) _ (by omega)]
    simp only [List.replicate_succ, List.append_assoc, List.cons_append, List.nil_append,
      List.singleton_append]
    rw [show iter + 1 + k = iter + (k + 1) by omega]

theorem plainLoop_after (s : Strategy) (f : Bool) (w n iter : Nat) (tr : List Event)
    (h : w < iter) :
    plainLoop s f w n iter tr = tr ++ List.replicate n (Event.kernel s) := by
  induction n generalizing iter tr with
  | zero => simp [plainLoop]
  | succ n ih =>
    have hne : ¬ iter = w := by omega
    rw [plainLoop]
    simp only [hne, if_false]
    rw [ih (iter + 1) _ (by omega)]
    simp [List.replicate_succ]

theorem plainLoop_before (s : Strategy) (f : Bool) (w k n iter : Nat) (tr : List Event)
    (h : iter + k ≤ w) :
    plainLoop s f w (k + n) iter tr =
      plainLoop s f w n (iter + k) (tr ++ List.replicate k (Event.kernel s)) := by
  induction k generalizing iter tr with
  | zero => simp
  | succ k ih =>
    have hne : ¬ iter = w := by omega
    rw [show k + 1 + n = (k + n) + 1 by omega, plainLoop]
    simp only [hne, if_false]
    rw [ih (iter + 1) _ (by omega)]
    simp only [List.replicate_succ, List.append_assoc, List.cons_append, List.nil_append,
      List.singleton_append]
    rw [show iter + 1 + k = iter + (k + 1) by omega]

theorem benchmarkWith_flush (w r : Nat) (s : Strategy) (el : Nat → ℚ) :
    benchmarkWith w r s true el =
      ⟨List.replicate w (Event.kernel s) ++
          (List.replicate r [Event.timer_start true, Event.kernel s, Event.timer_stop]).flatten,
        toFloat ((List.range r).foldl (fun acc j => toFloat (acc + el j)) 0 / toFloat (r : ℚ)),
        r⟩ := by
  unfold benchmarkWith
  simp only [if_true]
  rw [flushLoop_warm s true el w w r 0 _ (by omega), flushLoop_timed s true el w r _ _ (by omega)]
  simp

theorem benchmarkWith_plain (w r : Nat) (s : Strategy) (el : Nat → ℚ) :
    benchmarkWith w (r + 1) s false el =
      ⟨List.replicate w (Event.kernel s) ++ [Event.timer_start false] ++
          List.replicate (r + 1) (Event.kernel s) ++ [Event.timer_stop],
        toFloat (el 0 / toFloat ((r + 1 : Nat) : ℚ)), 1⟩ := by
  unfold benchmarkWith
  simp only [Bool.false_eq_true, if_false]
  rw [plainLoop_before s false w w (r + 1) 0 _ (by omega), plainLoop]
  simp only [zero_add, if_true]
  rw [plainLoop_after s false w r _ _ (by omega)]
  simp [List.replicate_succ]

theorem count_flatten_replicate (e : Event) (n : Nat) (l : List Event) :
    List.count e (List.replicate n l).flatten = n * List.count e l := by
  induction n with
  | zero => simp
  | succ n ih =>
    rw [List.replicate_succ, List.flatten_cons, List.count_append, ih]
    ring

theorem benchmark_trace (s : Strategy) (f : Bool) (el : Nat → ℚ) :
    (benchmark s f el).trace =
      List.replicate 10 (Event.kernel s) ++
        (if f then
          (List.replicate 100 [Event.timer_start true, Event.kernel s, Event.timer_stop]).flatten
        else
          [Event.timer_start false] ++ List.replicate 100 (Event.kernel s) ++
            [Event.timer_stop]) := by
  cases f with
  | true => rw [benchmark, benchmarkWith_flush]; rfl
  | false =>
    rw [benchmark, show repeat_iter = 99 + 1 from rfl, benchmarkWith_plain]
    simp [warmup_iter]

theorem benchmark_trace_head (s : Strategy) (f : Bool) (el : Nat → ℚ) :
    ∃ rest, (benchmark s f el).trace = Event.kernel s :: Event.kernel s :: rest := by
  rw [benchmark_trace]
  exact ⟨_, by simp only [List.replicate_succ, List.cons_append]; rfl⟩

theorem mem_benchmark_trace (s : Strategy) (f : Bool) (el : Nat → ℚ) (e : Event)
    (he : e ∈ (benchmark s f el).trace) :
    e = Event.kernel s ∨ e = Event.timer_start f ∨ e = Event.timer_stop := by
  rw [benchmark_trace] at he
  cases f with
  | true =>
    simp only [if_true, List.mem_append, List.mem_replicate, List.mem_flatten] at he
    rcases he with ⟨-, h⟩ | ⟨l, ⟨-, rfl⟩, h⟩
    · exact Or.inl h
    · simp only [List.mem_cons, List.mem_singleton, List.not_mem_nil, or_false] at h
      tauto
  | false =>
    simp only [Bool.false_eq_true, if_false, List.mem_append, List.mem_replicate,
      List.mem_singleton] at he
    tauto

theorem no_reset_after_write (pre : List Event) (w : Event) (hw : w.writesC = true) :
    ¬ ∃ a b, pre ++ [w] = a ++ Event.cudaMemset Buf.C_d :: b ∧ ∀ x ∈ b, x.writesC = false := by
  rintro ⟨a, b, hab, hb⟩
  rcases List.eq_nil_or_concat b with rfl | ⟨b2, x, rfl⟩
  · have := (List.append_inj' hab rfl).2
    simp only [List.cons.injEq, and_true] at this
    rw [this] at hw
    simp [Event.writesC] at hw
  · rw [List.concat_eq_append, ← List.cons_append, ← List.append_assoc] at hab
    have := (List.append_inj' hab rfl).2
    simp only [List.cons.injEq, and_true] at this
    have hx := hb x (by simp)
    rw [← this, hw] at hx
    exact Bool.noConfusion hx

theorem benchmarkBlock_eq (inp : Input) (K : Int) (s : Strategy) :
    benchmarkBlock inp K s =
      (benchmark s inp.flush_l2 (inp.elapsed_msecs s)).trace ++
        [report s inp.M inp.N K inp.nnz
          (benchmark s inp.flush_l2 (inp.elapsed_msecs s)).kernel_dur_msecs] := rfl

theorem BMatDecsr_offset (N K t c : Int) : (BMatDecsr N K).offset t c = t * N + c := rfl

theorem BMatDecsr_offset_mismatch (N K : Int) (_hN : 2 ≤ N) (hK : 2 ≤ K) :
    (BMatDecsr N K).offset 0 1 ≠ 1 * K + 0 := by
  rw [BMatDecsr_offset]
  omega

/-! ## Claims -/

/-- C1: for an indptr array `rowStart` of length `M + 1` (with `M` a C `int`) that is
non-decreasing and starts at `0`, the row expansion of `main` returns a `row_buffer` with one
entry for each of the `rowStart[M]` nonzero positions, every entry is a row number `r < M`,
and for every position `p < row_buffer.size()` and every row `r < M`, `row_buffer[p] == r` if
and only if `rowStart[r] <= p < rowStart[r + 1]`. -/
theorem row_buffer_agrees_with_csr (M : Nat) (rowStart : List Int) (hM : M < 2 ^ 31)
    (hv : ValidIndptr M rowStart) :
    ∃ row_buffer, expandRows rowStart = Except.ok row_buffer ∧
      (row_buffer.length : Int) = entry rowStart M ∧
      (∀ p : Nat, p < row_buffer.length → ∃ r : Nat, r < M ∧ row_buffer[p]? = some (r : Int)) ∧
      ∀ p r : Nat, p < row_buffer.length → r < M →
        (row_buffer[p]? = some (r : Int) ↔
          entry rowStart r ≤ (p : Int) ∧ (p : Int) < entry rowStart (r + 1)) :=
  ⟨expandSpec rowStart 0, expandRows_eq M rowStart hM hv.1,
    expandSpec_length_valid M rowStart hv,
    fun p hp => expandSpec_row_exists M rowStart hv p hp,
    fun p r hp hr => expandSpec_row_iff M rowStart hv p r hp hr⟩

/-- Witness for C1 on the indptr array of the concrete scenario of the specification. -/
theorem row_buffer_agrees_with_csr_witness :
    (4 < 2 ^ 31 ∧ ValidIndptr 4 [0, 1, 3, 3, 4]) ∧
    ∃ row_buffer, expandRows [0, 1, 3, 3, 4] = Except.ok row_buffer ∧
      (row_buffer.length : Int) = entry [0, 1, 3, 3, 4] 4 ∧
      (∀ p : Nat, p < row_buffer.length → ∃ r : Nat, r < 4 ∧ row_buffer[p]? = some (r : Int)) ∧
      ∀ p r : Nat, p < row_buffer.length → r < 4 →
        (row_buffer[p]? = some (r : Int) ↔
          entry [0, 1, 3, 3, 4] r ≤ (p : Int) ∧ (p : Int) < entry [0, 1, 3, 3, 4] (r + 1)) :=
  ⟨⟨by decide, by decide⟩, row_buffer_agrees_with_csr 4 [0, 1, 3, 3, 4] (by decide) (by decide)⟩

/-- C2: for every valid sparse view `(M, N, nnz, rowStart, colIndex)` and dense operands `A`
(`M x K` row-major) and `B` (`N x K` row-major), the reference computation and the two
strategies of `sddmm.h` (`sddmm_cuda_csr` given the row pointers, `sddmm_cuda_coo` given the
row array `main` expands) write, for every nonzero position `p` with `r = rowOf[p]` and
`c = colIndex[p]`, `out[p] = sum over t < K of A[r][t] * B[c][t]`. -/
theorem sddmm_strategies_compute_sampled_product {α : Type} [Semiring α] (M N K nnz : Nat)
    (rowStart colIndex : List Int) (csr_values A B out : List α) (hM : M < 2 ^ 31)
    (hv : ValidView M N nnz rowStart colIndex) (_hA : A.length = M * K)
    (_hB : B.length = N * K) (hout : out.length = nnz) :
    ∃ row_buffer, expandRows rowStart = Except.ok row_buffer ∧
      ∀ p, p < nnz → ∃ r c : Nat, r < M ∧ c < N ∧
        row_buffer[p]? = some (r : Int) ∧ colIndex[p]? = some (c : Int) ∧
        (sddmm_reference_host M N K nnz rowStart colIndex csr_values A B out)[p]? =
          some (∑ t ∈ Finset.range K, A.getD (r * K + t) 0 * B.getD (c * K + t) 0) ∧
        (sddmm_cuda_csr M K nnz rowStart colIndex A B out)[p]? =
          some (∑ t ∈ Finset.range K, A.getD (r * K + t) 0 * B.getD (c * K + t) 0) ∧
        (sddmm_cuda_coo K nnz row_buffer colIndex A B out)[p]? =
          some (∑ t ∈ Finset.range K, A.getD (r * K + t) 0 * B.getD (c * K + t) 0) := by
  obtain ⟨hvi, hnnz, hcl, hcr⟩ := hv
  refine ⟨expandSpec rowStart 0, expandRows_eq M rowStart hM hvi.1, ?_⟩
  intro p hp
  have hlenI := expandSpec_length_valid M rowStart hvi
  have hpl : p < (expandSpec rowStart 0).length := by omega
  obtain ⟨r, hr, hrow⟩ := expandSpec_row_exists M rowStart hvi p hpl
  have hpc : p < colIndex.length := by omega
  have hcx : colIndex[p]? = some (colIndex[p]) := List.getElem?_eq_getElem hpc
  have hcb := hcr _ (List.getElem?_mem hcx)
  have hcn : ((colIndex[p]).toNat : Int) = colIndex[p] := Int.toNat_of_nonneg hcb.1
  refine ⟨r, (colIndex[p]).toNat, hr, by omega, hrow, by rw [hcx, hcn], ?_, ?_, ?_⟩
  · unfold sddmm_reference_host
    rw [writeRange_getElem?, if_pos (by omega), rowOf_eq M rowStart hvi p r hr hrow,
      entry_of_getElem? _ _ _ hcx, dotRows_eq_sum]
  · unfold sddmm_cuda_csr
    rw [csrLoop_getElem? M K rowStart colIndex A B hvi M 0 out p (by omega),
      if_pos ⟨by rw [hvi.2.1]; omega, by omega, by omega⟩,
      entry_of_getElem? _ _ _ hrow, entry_of_getElem? _ _ _ hcx, Int.toNat_ofNat,
      dotRows_eq_sum]
  · unfold sddmm_cuda_coo
    rw [writeRange_getElem?, if_pos (by omega), entry_of_getElem? _ _ _ hrow,
      entry_of_getElem? _ _ _ hcx, Int.toNat_ofNat, dotRows_eq_sum]

/-- Witness for C2, the concrete scenario of the specification: `M = N = 4`, `K = 2`,
`rowStart = [0, 1, 3, 3, 4]`, `colIndex = [1, 0, 2, 3]`, `A = [[1,0],[0,1],[1,1],[2,0]]`,
`B = [[1,1],[2,0],[0,2],[1,1]]`; the three outputs are `[2, 1, 2, 2]`. -/
theorem sddmm_strategies_compute_sampled_product_witness :
    (4 < 2 ^ 31 ∧ ValidView 4 4 4 [0, 1, 3, 3, 4] [1, 0, 2, 3]) ∧
    (∃ row_buffer, expandRows [0, 1, 3, 3, 4] = Except.ok row_buffer ∧
      ∀ p, p < 4 → ∃ r c : Nat, r < 4 ∧ c < 4 ∧
        row_buffer[p]? = some (r : Int) ∧ [1, 0, 2, (3 : Int)][p]? = some (c : Int) ∧
        (sddmm_reference_host 4 4 2 4 [0, 1, 3, 3, 4] [1, 0, 2, 3] [7, 7, 7, 7]
            [1, 0, 0, 1, 1, 1, 2, 0] [1, 1, 2, 0, 0, 2, 1, 1] [0, 0, 0, (0 : Int)])[p]? =
          some (∑ t ∈ Finset.range 2, [1, 0, 0, 1, 1, 1, 2, (0 : Int)].getD (r * 2 + t) 0 *
            [1, 1, 2, 0, 0, 2, 1, (1 : Int)].getD (c * 2 + t) 0) ∧
        (sddmm_cuda_csr 4 2 4 [0, 1, 3, 3, 4] [1, 0, 2, 3] [1, 0, 0, 1, 1, 1, 2, 0]
            [1, 1, 2, 0, 0, 2, 1, 1] [0, 0, 0, (0 : Int)])[p]? =
          some (∑ t ∈ Finset.range 2, [1, 0, 0, 1, 1, 1, 2, (0 : Int)].getD (r * 2 + t) 0 *
            [1, 1, 2, 0, 0, 2, 1, (1 : Int)].getD (c * 2 + t) 0) ∧
        (sddmm_cuda_coo 2 4 row_buffer [1, 0, 2, 3] [1, 0, 0, 1, 1, 1, 2, 0]
            [1, 1, 2, 0, 0, 2, 1, 1] [0, 0, 0, (0 : Int)])[p]? =
          some (∑ t ∈ Finset.range 2, [1, 0, 0, 1, 1, 1, 2, (0 : Int)].getD (r * 2 + t) 0 *
            [1, 1, 2, 0, 0, 2, 1, (1 : Int)].getD (c * 2 + t) 0)) ∧
    sddmm_reference_host 4 4 2 4 [0, 1, 3, 3, 4] [1, 0, 2, 3] [7, 7, 7, 7]
      [1, 0, 0, 1, 1, 1, 2, 0] [1, 1, 2, 0, 0, 2, 1, 1] [0, 0, 0, (0 : Int)] = [2, 1, 2, 2] ∧
    sddmm_cuda_csr 4 2 4 [0, 1, 3, 3, 4] [1, 0, 2, 3] [1, 0, 0, 1, 1, 1, 2, 0]
      [1, 1, 2, 0, 0, 2, 1, 1] [0, 0, 0, (0 : Int)] = [2, 1, 2, 2] ∧
    sddmm_cuda_coo 2 4 [0, 1, 1, 3] [1, 0, 2, 3] [1, 0, 0, 1, 1, 1, 2, 0]
      [1, 1, 2, 0, 0, 2, 1, 1] [0, 0, 0, (0 : Int)] = [2, 1, 2, 2] :=
  ⟨⟨by decide, by decide⟩,
    sddmm_strategies_compute_sampled_product 4 4 2 4 [0, 1, 3, 3, 4] [1, 0, 2, 3] [7, 7, 7, 7]
      [1, 0, 0, 1, 1, 1, 2, 0] [1, 1, 2, 0, 0, 2, 1, 1] [0, 0, 0, 0] (by decide) (by decide)
      (by decide) (by decide) (by decide),
    by decide, by decide, by decide⟩

/-- C3: for an indptr array of length `M + 1` that is non-decreasing, starts at `0` and ends
with `rowStart[M] = nnz`, the row expansion of `main` returns a `row_buffer` with exactly `nnz`
entries, and every index read by the `nnz`-element copy of `row_buffer` to the device is the
index of an existing element. -/
theorem row_buffer_size_eq_nnz (M : Nat) (rowStart : List Int) (nnz : Int) (hM : M < 2 ^ 31)
    (hv : ValidIndptr M rowStart) (hnnz : entry rowStart M = nnz) :
    ∃ row_buffer, expandRows rowStart = Except.ok row_buffer ∧
      (row_buffer.length : Int) = nnz ∧
      ∀ p ∈ copyReads nnz, ∃ x, row_buffer[p]? = some x := by
  obtain ⟨hlen, h0, hs⟩ := hv
  refine ⟨expandSpec rowStart 0, expandRows_eq M rowStart hM hlen, ?_⟩
  cases rowStart with
  | nil => simp at hlen
  | cons a l =>
    rw [entry_cons_zero] at h0
    subst h0
    have hl : l.length = M := by simpa using hlen
    have hsz : ((expandSpec (0 :: l) 0).length : Int) = nnz := by
      rw [expandSpec_length 0 l 0 hs, hl, hnnz]
      simp
    refine ⟨hsz, ?_⟩
    intro p hp
    have hp2 : p < nnz.toNat := by simpa [copyReads] using hp
    have hp3 : p < (expandSpec (0 :: l) 0).length := by omega
    exact ⟨_, List.getElem?_eq_getElem hp3⟩

/-- Witness for C3 on the indptr array of the concrete scenario (`nnz = 4`). -/
theorem row_buffer_size_eq_nnz_witness :
    (4 < 2 ^ 31 ∧ ValidIndptr 4 [0, 1, 3, 3, 4] ∧ entry [0, 1, 3, 3, 4] 4 = 4) ∧
    ∃ row_buffer, expandRows [0, 1, 3, 3, 4] = Except.ok row_buffer ∧
      (row_buffer.length : Int) = 4 ∧
      ∀ p ∈ copyReads 4, ∃ x, row_buffer[p]? = some x :=
  ⟨⟨by decide, by decide, by decide⟩,
    row_buffer_size_eq_nnz 4 [0, 1, 3, 3, 4] 4 (by decide) (by decide) (by decide)⟩

/-- C4 (failing input): on the valid one-row view `indptr = [0, 0]` (`M = 1`, `nnz = 0`) the
row expansion succeeds with an empty `row_buffer`, but `main` then reads
`csr_indptr_buffer[2]` for its `printf`, past the end of the 2-element vector, before the
reference computation or any kernel launch. -/
theorem main_faults_on_one_row_view :
    ValidIndptr 1 oneRowInput.csr_indptr_buffer ∧
    expandRows oneRowInput.csr_indptr_buffer = Except.ok [] ∧
    (main oneRowInput).outcome = Outcome.fault ⟨Site.printIndptr, 2, 2⟩ := by
  refine ⟨by decide, by rfl, by rfl⟩

/-- C5 (counterexample): the view of `outOfRangeInput` has a column index `5 >= N = 1`, and
`main` invokes `sddmm_reference_host` with that very view: nothing has rejected it. -/
theorem main_passes_out_of_range_view :
    (∃ c ∈ outOfRangeInput.csr_indices_buffer, outOfRangeInput.N ≤ c) ∧
    Event.sddmm_reference_host 2 1 128 1 [0, 1, 1] [5] ∈ (main outOfRangeInput).trace := by
  refine ⟨⟨5, by decide, by decide⟩, ?_⟩
  rw [main_of_reachesReference outOfRangeInput (by decide)]
  exact List.mem_append_left _ (by simp [hostTrace, outOfRangeInput, parseK])

/-- C5 (amended): `main` performs no range check on the column indices.  Whenever the matrix
argument is present, `K > 0`, host allocation succeeds and the indptr array has at least three
entries, the operations of `main` start with the load, the first print, five host allocations,
three random fills and the print of `csr_indptr_buffer[2]`, directly followed by the call of
`sddmm_reference_host` on the loaded indptr and indices arrays as they are, whatever the
column indices. -/
theorem main_does_not_validate_columns (inp : Input) (h : inp.ReachesReference) :
    (∃ rest, (main inp).trace = hostTrace inp ++ rest) ∧
    hostTrace inp =
      [Event.read_npz_file, Event.printf_finish inp.M inp.N inp.nnz] ++
        List.replicate 5 Event.malloc_host ++ List.replicate 3 Event.fill_random ++
        [Event.printf_indptr (entry inp.csr_indptr_buffer 2),
         Event.sddmm_reference_host inp.M inp.N (parseK inp.argc inp.atoiArgv2) inp.nnz
           inp.csr_indptr_buffer inp.csr_indices_buffer] := by
  rw [main_of_reachesReference inp h]
  exact ⟨⟨_, rfl⟩, rfl⟩

/-- Witness for the amended C5 on the view with an out-of-range column index. -/
theorem main_does_not_validate_columns_witness :
    outOfRangeInput.ReachesReference ∧
    ((∃ rest, (main outOfRangeInput).trace = hostTrace outOfRangeInput ++ rest) ∧
    hostTrace outOfRangeInput =
      [Event.read_npz_file,
        Event.printf_finish outOfRangeInput.M outOfRangeInput.N outOfRangeInput.nnz] ++
        List.replicate 5 Event.malloc_host ++ List.replicate 3 Event.fill_random ++
        [Event.printf_indptr (entry outOfRangeInput.csr_indptr_buffer 2),
         Event.sddmm_reference_host outOfRangeInput.M outOfRangeInput.N
           (parseK outOfRangeInput.argc outOfRangeInput.atoiArgv2) outOfRangeInput.nnz
           outOfRangeInput.csr_indptr_buffer outOfRangeInput.csr_indices_buffer]) :=
  ⟨by decide, main_does_not_validate_columns outOfRangeInput (by decide)⟩

/-- C6: when the matrix-file argument is missing (`argc < 2`) `main` returns `EXIT_FAILURE`;
when the optional `K` argument is present and parses to a non-positive value, the assertion
aborts the process; in both cases the status is non-zero and no device allocation, copy or
kernel launch has been performed; and when the `K` argument is absent, `K` is 128.  (The
loaded indptr array is taken to have `M + 1` entries for a C `int` `M`.) -/
theorem main_rejects_bad_arguments (inp : Input) (hl : inp.Loaded) :
    (inp.argc < 2 → (main inp).outcome = Outcome.returned EXIT_FAILURE) ∧
    (2 < inp.argc → inp.atoiArgv2 ≤ 0 → (main inp).outcome = Outcome.aborted) ∧
    ((inp.argc < 2 ∨ (2 < inp.argc ∧ inp.atoiArgv2 ≤ 0)) →
      (main inp).outcome.nonZeroExit ∧ ∀ e ∈ (main inp).trace, e.isDeviceWork = false) ∧
    (¬ 2 < inp.argc → parseK inp.argc inp.atoiArgv2 = 128) := by
  have hA : inp.argc < 2 →
      main inp = ⟨[Event.printf_usage], Outcome.returned EXIT_FAILURE⟩ := by
    intro h
    unfold main
    rw [if_pos h]
  have hB : 2 < inp.argc → inp.atoiArgv2 ≤ 0 →
      main inp = ⟨[Event.read_npz_file, Event.printf_finish inp.M inp.N inp.nnz],
        Outcome.aborted⟩ := by
    intro h hk
    have hnot : ¬ inp.argc < 2 := by omega
    have hK : ¬ parseK inp.argc inp.atoiArgv2 > 0 := by
      unfold parseK
      rw [if_pos h]
      omega
    unfold main
    rw [if_neg hnot, expandRows_of_loaded _ hl.1 hl.2]
    simp only []
    rw [if_pos hK]
  refine ⟨fun h => by rw [hA h], fun h hk => by rw [hB h hk], ?_, ?_⟩
  · rintro (h | ⟨h, hk⟩)
    · rw [hA h]
      simp [Outcome.nonZeroExit, EXIT_FAILURE, Event.isDeviceWork]
    · rw [hB h hk]
      simp [Outcome.nonZeroExit, Event.isDeviceWork]
  · intro h
    unfold parseK
    rw [if_neg h]

/-- Witness for C6: a run whose `K` argument parses to `-5` is aborted by the assertion before
any device work, and a run without matrix argument returns `EXIT_FAILURE`. -/
theorem main_rejects_bad_arguments_witness :
    (badKInput.Loaded ∧ noArgInput.Loaded) ∧
    (main badKInput).outcome = Outcome.aborted ∧
    ((main badKInput).outcome.nonZeroExit ∧
      ∀ e ∈ (main badKInput).trace, e.isDeviceWork = false) ∧
    (main noArgInput).outcome = Outcome.returned EXIT_FAILURE ∧
    parseK noArgInput.argc noArgInput.atoiArgv2 = 128 :=
  ⟨⟨by decide, by decide⟩,
    (main_rejects_bad_arguments badKInput (by decide)).2.1 (by decide) (by decide),
    (main_rejects_bad_arguments badKInput (by decide)).2.2.1 (Or.inr ⟨by decide, by decide⟩),
    (main_rejects_bad_arguments noArgInput (by decide)).1 (by decide),
    (main_rejects_bad_arguments noArgInput (by decide)).2.2.2 (by decide)⟩

/-- C7 (counterexample): for `nnz = 4`, `K = 2` and a mean duration of `1/2` ms the printed
throughput is the `float` value `8796093 / 2^38`, which is not
`2 * nnz * K / (mean_iteration_seconds * 1e9) = 1 / 31250`. -/
theorem report_throughput_not_exact :
    ((0 : Int) ≤ 4 ∧ (0 : Int) < 2 ∧ (0 : ℚ) < 1 / 2) ∧
    (report Strategy.csr 4 4 2 4 (1 / 2)).throughput = 8796093 / 2 ^ 38 ∧
    (report Strategy.csr 4 4 2 4 (1 / 2)).throughput ≠
      2 * ((4 : Int) : ℚ) * ((2 : Int) : ℚ) / (((1 / 2 : ℚ) / 1000) * 10 ^ 9) := by
  have h : (report Strategy.csr 4 4 2 4 (1 / 2)).throughput = 8796093 / 2 ^ 38 := by
    simp only [report, Event.throughput]
    exact gflops_example
  refine ⟨⟨by decide, by decide, by norm_num⟩, h, ?_⟩
  rw [h]
  norm_num

/-- C7 (amended): for `0 <= nnz < 2^31`, `0 < K < 2^31` and a mean iteration duration
`2^-64 <= d_ms <= 2^64` in milliseconds, the throughput printed by the report of each strategy,
`((float)nnz / 1e6 * K * 2) / d_ms` evaluated in `float`/`double` with a rounding after each
operation, differs from `2 * nnz * K / (mean_iteration_seconds * 1e9)`, where
`mean_iteration_seconds = d_ms / 1000`, by a relative error of at most `2^-22`. -/
theorem report_throughput_rel_error (s : Strategy) (M N K nnz : Int) (d_ms : ℚ)
    (hnnz : 0 ≤ nnz) (_hnnz2 : nnz < 2 ^ 31) (hK : 0 < K) (_hK2 : K < 2 ^ 31)
    (hd : 1 / 2 ^ 64 ≤ d_ms) (hd2 : d_ms ≤ 2 ^ 64) :
    |(report s M N K nnz d_ms).throughput -
        2 * (nnz : ℚ) * (K : ℚ) / ((d_ms / 1000) * 10 ^ 9)| ≤
      2 * (nnz : ℚ) * (K : ℚ) / ((d_ms / 1000) * 10 ^ 9) / 2 ^ 22 := by
  have hd0 : 0 < d_ms := lt_of_lt_of_le (by positivity) hd
  have hT : 2 * (nnz : ℚ) * (K : ℚ) / ((d_ms / 1000) * 10 ^ 9) =
      (nnz : ℚ) / 1000000 * (K : ℚ) * 2 / d_ms := by
    field_simp
    ring
  simp only [report, Event.throughput]
  rw [hT]
  rcases eq_or_lt_of_le hnnz with h0 | hpos
  · rw [← h0, gflops_zero]
    simp
  · obtain ⟨h1, h2⟩ := gflops_bounds nnz K d_ms (by omega) (by omega) hd0 hd2
    rw [abs_le]
    constructor <;> linarith

/-- Witness for the amended C7: `nnz = 4`, `K = 2`, mean duration `1/2` ms. -/
theorem report_throughput_rel_error_witness :
    ((0 : Int) ≤ 4 ∧ (4 : Int) < 2 ^ 31 ∧ (0 : Int) < 2 ∧ (2 : Int) < 2 ^ 31 ∧
      (1 : ℚ) / 2 ^ 64 ≤ 1 / 2 ∧ (1 / 2 : ℚ) ≤ 2 ^ 64) ∧
    |(report Strategy.csr 4 4 2 4 (1 / 2)).throughput -
        2 * ((4 : Int) : ℚ) * ((2 : Int) : ℚ) / (((1 / 2 : ℚ) / 1000) * 10 ^ 9)| ≤
      2 * ((4 : Int) : ℚ) * ((2 : Int) : ℚ) / (((1 / 2 : ℚ) / 1000) * 10 ^ 9) / 2 ^ 22 :=
  ⟨⟨by decide, by decide, by decide, by decide, by norm_num, by norm_num⟩,
    report_throughput_rel_error Strategy.csr 4 4 2 4 (1 / 2) (by decide) (by decide)
      (by decide) (by decide) (by norm_num) (by norm_num)⟩

/-- C8: for each strategy, in flush mode the loop performs `warmup_iter` untimed kernel
invocations followed by `repeat_iter` invocations each enclosed by its own timer start (with
the flush) and stop, and the reported mean is the sum of the `repeat_iter` elapsed times,
accumulated in `float` in the order of the iterations, divided in `float` by `repeat_iter`;
without flush it performs `warmup_iter` untimed invocations, one timer start, `repeat_iter`
invocations and one stop, and the reported mean is the single elapsed time divided in `float`
by `repeat_iter`; in both modes the kernel is invoked `warmup_iter + repeat_iter = 110`
times. -/
theorem benchmark_protocol (s : Strategy) (el : Nat → ℚ) :
    (benchmark s true el).trace =
        List.replicate warmup_iter (Event.kernel s) ++
          (List.replicate repeat_iter
            [Event.timer_start true, Event.kernel s, Event.timer_stop]).flatten ∧
    (benchmark s true el).kernel_dur_msecs =
        toFloat ((List.range repeat_iter).foldl (fun acc j => toFloat (acc + el j)) 0 / 100) ∧
    (benchmark s false el).trace =
        List.replicate warmup_iter (Event.kernel s) ++ [Event.timer_start false] ++
          List.replicate repeat_iter (Event.kernel s) ++ [Event.timer_stop] ∧
    (benchmark s false el).kernel_dur_msecs = toFloat (el 0 / 100) ∧
    (∀ flush_l2, List.count (Event.kernel s) (benchmark s flush_l2 el).trace = 10 + 100) ∧
    warmup_iter = 10 ∧ repeat_iter = 100 := by
  have hf := benchmarkWith_flush warmup_iter repeat_iter s el
  have hp := benchmarkWith_plain warmup_iter 99 s el
  have h100 : toFloat ((repeat_iter : Nat) : ℚ) = 100 := by
    rw [show ((repeat_iter : Nat) : ℚ) = 100 by norm_num [repeat_iter]]
    exact toFloat_hundred
  have h100b : toFloat (((99 + 1 : Nat) : Nat) : ℚ) = 100 := by
    rw [show (((99 + 1 : Nat) : Nat) : ℚ) = 100 by norm_num]
    exact toFloat_hundred
  refine ⟨by rw [benchmark, hf], by rw [benchmark, hf, h100], ?_, ?_, ?_, rfl, rfl⟩
  · rw [benchmark, show repeat_iter = 99 + 1 from rfl, hp]
  · rw [benchmark, show repeat_iter = 99 + 1 from rfl, hp, h100b]
  · intro flush_l2
    cases flush_l2 with
    | true =>
      rw [benchmark, hf, List.count_append, count_flatten_replicate, List.count_replicate_self]
      simp [List.count_cons, warmup_iter, repeat_iter]
    | false =>
      rw [benchmark, show repeat_iter = 99 + 1 from rfl, hp]
      simp [List.count_cons, List.count_replicate_self, warmup_iter]

/-- C9 (counterexample): in the run on the concrete scenario, the second invocation of
`sddmm_cuda_csr` follows the first one directly, with no reset of `C_d` in between. -/
theorem reset_before_every_invocation_fails :
    ¬ ResetBeforeEveryInvocation (main scenarioInput).trace := by
  intro h
  rw [main_of_reachesReference scenarioInput (by decide)] at h
  obtain ⟨rest, hrest⟩ := benchmark_trace_head Strategy.csr scenarioInput.flush_l2
    (scenarioInput.elapsed_msecs Strategy.csr)
  let K := parseK scenarioInput.argc scenarioInput.atoiArgv2
  let rb := expandSpec scenarioInput.csr_indptr_buffer 0
  obtain ⟨a, b, hab, hb⟩ := h
    ((hostTrace scenarioInput ++ deviceSetup scenarioInput.M scenarioInput.N K scenarioInput.nnz rb
        ++ cusparseSetup scenarioInput.M scenarioInput.N K scenarioInput.nnz
        ++ benchmarkBlock scenarioInput K Strategy.cusparse
        ++ [Event.cudaMemset Buf.C_d]) ++ [Event.kernel Strategy.csr])
    (Event.kernel Strategy.csr)
    (rest ++ [report Strategy.csr scenarioInput.M scenarioInput.N K scenarioInput.nnz
        (benchmark Strategy.csr scenarioInput.flush_l2
          (scenarioInput.elapsed_msecs Strategy.csr)).kernel_dur_msecs]
      ++ benchmarkBlock scenarioInput K Strategy.coo ++ cleanup)
    (by
      simp only [deviceRun, K, rb]
      rw [benchmarkBlock_eq scenarioInput _ Strategy.csr]
      simp only [hrest, List.append_assoc, List.cons_append, List.nil_append])
    rfl
  exact no_reset_after_write _ (Event.kernel Strategy.csr) rfl ⟨a, b, hab, hb⟩

/-- C9 (amended): whenever `main` reaches the device part, its operations contain a reset of
`C_d` immediately followed by the first invocation of `sddmm_cuda_csr`, no kernel having
written `C_d` before it; and no benchmark loop contains a reset of `C_d`. -/
theorem reset_once_before_csr_block (inp : Input) (h : inp.ReachesReference) :
    (∃ pre post, (main inp).trace =
        pre ++ Event.cudaMemset Buf.C_d :: Event.kernel Strategy.csr :: post ∧
        ∀ x ∈ pre, x.writesC = false) ∧
    (∀ s, Event.cudaMemset Buf.C_d ∉ (benchmark s inp.flush_l2 (inp.elapsed_msecs s)).trace) := by
  constructor
  · rw [main_of_reachesReference inp h]
    obtain ⟨rest, hrest⟩ := benchmark_trace_head Strategy.csr inp.flush_l2
      (inp.elapsed_msecs Strategy.csr)
    let K := parseK inp.argc inp.atoiArgv2
    refine ⟨hostTrace inp ++ deviceSetup inp.M inp.N K inp.nnz (expandSpec inp.csr_indptr_buffer 0)
        ++ cusparseSetup inp.M inp.N K inp.nnz ++ benchmarkBlock inp K Strategy.cusparse,
      Event.kernel Strategy.csr :: rest ++ [report Strategy.csr inp.M inp.N K inp.nnz
        (benchmark Strategy.csr inp.flush_l2 (inp.elapsed_msecs Strategy.csr)).kernel_dur_msecs]
      ++ benchmarkBlock inp K Strategy.coo ++ cleanup, ?_, ?_⟩
    · simp only [deviceRun, K]
      rw [benchmarkBlock_eq inp _ Strategy.csr]
      simp only [hrest, List.append_assoc, List.cons_append, List.nil_append]
    · intro x hx
      simp only [List.mem_append] at hx
      rcases hx with ((hx | hx) | hx) | hx
      · simp only [hostTrace, List.mem_append, List.mem_replicate, List.mem_cons,
          List.mem_singleton, List.not_mem_nil, or_false] at hx
        rcases hx with ((hx | hx) | hx) | hx
        · rcases hx with rfl | rfl <;> rfl
        · rw [hx.2]; rfl
        · rw [hx.2]; rfl
        · rcases hx with rfl | rfl <;> rfl
      · simp only [deviceSetup, List.mem_cons, List.mem_singleton, List.not_mem_nil,
          or_false] at hx
        rcases hx with rfl | rfl | rfl | rfl | rfl | rfl | rfl | rfl | rfl | rfl | rfl | rfl |
          rfl | rfl | rfl | rfl <;> rfl
      · simp only [cusparseSetup, List.mem_cons, List.mem_singleton, List.not_mem_nil,
          or_false] at hx
        rcases hx with rfl | rfl | rfl | rfl | rfl | rfl | rfl | rfl | rfl <;> rfl
      · simp only [benchmarkBlock, List.mem_append, List.mem_singleton] at hx
        rcases hx with hx | rfl
        · rcases mem_benchmark_trace _ _ _ _ hx with rfl | rfl | rfl <;> rfl
        · rfl
  · intro s hmem
    rcases mem_benchmark_trace _ _ _ _ hmem with h1 | h1 | h1 <;> exact Event.noConfusion h1

/-- Witness for the amended C9 on the concrete scenario. -/
theorem reset_once_before_csr_block_witness :
    scenarioInput.ReachesReference ∧
    ((∃ pre post, (main scenarioInput).trace =
        pre ++ Event.cudaMemset Buf.C_d :: Event.kernel Strategy.csr :: post ∧
        ∀ x ∈ pre, x.writesC = false) ∧
    (∀ s, Event.cudaMemset Buf.C_d ∉
      (benchmark s scenarioInput.flush_l2 (scenarioInput.elapsed_msecs s)).trace)) :=
  ⟨by decide, reset_once_before_csr_block scenarioInput (by decide)⟩

/-- C10 (failing input): with `N = 2` and `K = 3` the descriptor `main` creates for `B` addresses
element `(t, c) = (1, 0)` at offset `1 * N + 0 = 2` of the `B` buffer, whereas entry `B[0][1]` of
the `N x K` row-major operand is at offset `0 * K + 1 = 1`; with `A = [[0, 1, 0]]` and
`B = [[1, 2, 3], [4, 5, 6]]` the baseline product at `(0, 0)` is `3`, the dot product of row 0
of `A` and row 0 of `B` is `2`. -/
theorem baseline_reads_transposed_B :
    (BMatDecsr 2 3).offset 1 0 = 2 ∧ ((0 * 3 + 1 : Nat) : Int) = 1 ∧
    baselineProduct (AMatDecsr 1 3) (BMatDecsr 2 3) [0, 1, 0] [1, 2, 3, 4, 5, (6 : Int)] 0 0 = 3 ∧
    dotRows 3 [0, 1, 0] [1, 2, 3, 4, 5, (6 : Int)] 0 0 = 2 := by
  decide

end Sddmm
